import Mathlib

/-!
Shallow embedding of `spiral` (src/main.rs), an all-colors mosaic generator.

Modelling conventions:
* `u8` values are natural numbers; every `as u8` cast is an explicit `% 256`.
* `i16` / `i64` arithmetic is embedded as `Int` (no intermediate overflows occur
  in the source: sums of a `u8` and a negated `u8` lie in `[-255, 510]`).
* The seeded pseudo-random generator (`StdRng`) is external library code; it is
  modelled as a stream of draws, threaded through a counter exactly as the
  source consumes them.  Integer draws come from a stream `rngN : Nat -> Nat`
  and heading draws (`gen_range(0.0..TAU)`) from a stream `rngA : Nat -> A`.
* `f64` headings and walk positions are floating point and are abstracted: the
  heading type is a parameter `A`, and the curved random walk of `make_image`
  (lines 135-144, pure float arithmetic ending in the toroidal wrap) is
  abstracted into an oracle `wo : Nat -> Nat -> (Nat x Nat) x A` giving, for a
  color index and a step count, the wrapped rounded cell and the current
  heading.  The toroidal wrap formula itself is embedded separately over an
  arbitrary linear ordered field (`wrapCoord` below) and proved to land in
  `[0, size)`, which justifies the in-range hypotheses placed on the oracle.
* Rust panics (`expect`, `assert!`, index checks) are embedded as
  `Except.error` with a message identifying the source panic site.
* `hashbrown::HashSet` of open locations is modelled as a duplicate-free list;
  `remove_random` (lines 53-81) repeatedly samples raw buckets until it hits a
  full one, i.e. it removes the member of the set selected by the random
  draw; it is modelled as removing the `d % len`-th member.  `HashMap` is
  modelled as an association list where insertion prepends (= overwrites).
-/

namespace Spiral

/-- Component triple, used both for `[u8; 3]` colors and `[i16; 3]` offsets. -/
structure Triple (α : Type) where
  r : α
  g : α
  b : α
deriving DecidableEq, Repr

abbrev Loc := Nat × Nat

/-- Rust `as u8` on an unsigned value. -/
def u8 (n : Nat) : Nat := n % 256

/-- Rust `as u8` on an `i16` value (wrap modulo 256). -/
def i16ToU8 (x : Int) : Nat := (x % 256).toNat

/-- Line 14-16: `color_base_to_color`, per component `(cbc as u64 * 255 / (color_size - 1)) as u8`.
Note the Rust expression uses truncating integer division (and panics when
`color_size = 1`, a case never reached with `scale >= 2`; `Nat` division
totalizes it as 0). -/
def color_base_to_color (cb : Triple Nat) (color_size : Nat) : Triple Nat :=
  ⟨u8 (cb.r * 255 / (color_size - 1)),
   u8 (cb.g * 255 / (color_size - 1)),
   u8 (cb.b * 255 / (color_size - 1))⟩

/-- Lines 23-28: the `n`-th color base, by mixed-radix decomposition of `n`
in base `color_size` (each component then cast `as u8`). -/
def colorBaseOfIndex (color_size n : Nat) : Triple Nat :=
  ⟨u8 (n % color_size), u8 (n / color_size % color_size), u8 (n / color_size ^ 2)⟩

/-- Lines 30-32: `color.map(|c| c as i16)` (a `u8` fits an `i16` exactly). -/
def baseAsInt (c : Triple Nat) : Triple Int := ⟨(c.r : Int), (c.g : Int), (c.b : Int)⟩

/-- Lines 33-45: the eight sign-variants of a color, in source order. -/
def signVariants (c : Triple Int) : List (Triple Int) :=
  [⟨c.r, c.g, c.b⟩, ⟨c.r, c.g, -c.b⟩, ⟨c.r, -c.g, c.b⟩, ⟨c.r, -c.g, -c.b⟩,
   ⟨-c.r, c.g, c.b⟩, ⟨-c.r, c.g, -c.b⟩, ⟨-c.r, -c.g, c.b⟩, ⟨-c.r, -c.g, -c.b⟩]

/-- Line 49: the sort key, `color_offset.map(|c| (c as i64).pow(2)).iter().sum()`. -/
def offsetMag (o : Triple Int) : Int := o.r ^ 2 + o.g ^ 2 + o.b ^ 2

/-- Comparison used to sort the offset list ascending by squared magnitude. -/
def offsetLe (a b : Triple Int) : Prop := offsetMag a ≤ offsetMag b

instance : DecidableRel offsetLe :=
  fun a b => inferInstanceAs (Decidable (offsetMag a ≤ offsetMag b))

/-- Swap two positions of a list (Rust `Vec::swap`; only called in bounds). -/
def swapL {α : Type} (l : List α) (i j : Nat) : List α :=
  match l.get? i, l.get? j with
  | some a, some b => (l.set i b).set j a
  | _, _ => l

/-- Fisher-Yates rounds of the `shuffle` of the `rand` crate: for `i` from `len-1` down to `1`,
swap index `i` with a drawn index in `0..=i`.  Returns the list and the
advanced draw counter. -/
def fisherYatesGo {α : Type} (rng : Nat → Nat) : Nat → List α → Nat → List α × Nat
  | 0, l, t => (l, t)
  | i + 1, l, t => fisherYatesGo rng i (swapL l (i + 1) (rng t % (i + 2))) (t + 1)

/-- Line 47: `color_bases.shuffle(rng)` (Fisher-Yates, from the `rand` crate). -/
def fisherYates {α : Type} (rng : Nat → Nat) (t : Nat) (l : List α) : List α × Nat :=
  fisherYatesGo rng (l.length - 1) l t

/-- Lines 20-51: `make_bases_offsets`.  Builds the `scale^6` color bases by
mixed-radix decomposition, derives the sign-variant offsets from the
pre-shuffle list, shuffles the bases, and sorts the offsets ascending by
squared magnitude.  Rust `sort_by_key` is a stable sort; `insertionSort`
with a total `<=` key comparison is also stable, and any two stable sorts
under the same key agree, so the embedding is exact.  Returns the shuffled
bases, the sorted offsets, and the advanced draw counter. -/
def make_bases_offsets (scale : Nat) (rng : Nat → Nat) (t : Nat) :
    List (Triple Nat) × List (Triple Int) × Nat :=
  let color_size := scale ^ 2
  let bases0 : List (Triple Nat) := (List.range (scale ^ 6)).map (colorBaseOfIndex color_size)
  let offsets0 : List (Triple Int) := (bases0.map baseAsInt).flatMap signVariants
  let shuffled := fisherYates rng t bases0
  (shuffled.1, List.insertionSort offsetLe offsets0, shuffled.2)

/-- Lines 53-81: `remove_random` on the open-location set, modelled on the
member list: `None` iff empty, else remove the member selected by the draw. -/
def remove_random {α : Type} (l : List α) (d : Nat) : Option (α × List α) :=
  if h : 0 < l.length then
    some (l.get ⟨d % l.length, Nat.mod_lt _ h⟩, l.eraseIdx (d % l.length))
  else none

/-- Association-list model of `HashMap<ColorBase, Location>`: lookup finds the
most recent insertion first (= overwrite semantics of `HashMap::insert`). -/
def alLookup : List (Triple Nat × Loc) → Triple Nat → Option Loc
  | [], _ => none
  | (k, v) :: rest, q => if k = q then some v else alLookup rest q

/-- First `some` produced by `f` along the list (modelling the
`iter().filter_map(...).next()` chain). -/
def firstHit {α β : Type} (f : α → Option β) : List α → Option β
  | [] => none
  | a :: l =>
    match f a with
    | some x => some x
    | none => firstHit f l

/-- Lines 121-129: probe one offset: add it componentwise to the color base
(`i16` arithmetic), skip (`none`) if any component is outside `[0, 255]`,
otherwise look the `u8` triple up in the color-to-location map. -/
def probeOffset (cbl : List (Triple Nat × Loc)) (cb : Triple Nat) (o : Triple Int) : Option Loc :=
  if (cb.r : Int) + o.r < 0 ∨ (cb.r : Int) + o.r > 255 ∨
     (cb.g : Int) + o.g < 0 ∨ (cb.g : Int) + o.g > 255 ∨
     (cb.b : Int) + o.b < 0 ∨ (cb.b : Int) + o.b > 255 then none
  else alLookup cbl ⟨i16ToU8 ((cb.r : Int) + o.r), i16ToU8 ((cb.g : Int) + o.g),
    i16ToU8 ((cb.b : Int) + o.b)⟩

/-- Lines 119-132: the nearest-placed lookup, first hit along the offset list. -/
def mostSimilar (offsets : List (Triple Int)) (cbl : List (Triple Nat × Loc))
    (cb : Triple Nat) : Option Loc :=
  firstHit (probeOffset cbl cb) offsets

/-- Read a cell of a row-major `size x size` nested list (both grids are kept
at exactly that shape by construction). -/
def get2d {α : Type} (g : List (List α)) (i j : Nat) (dflt : α) : α :=
  (g.getD i []).getD j dflt

/-- Write a cell of a nested list. -/
def set2d {α : Type} (g : List (List α)) (i j : Nat) (v : α) : List (List α) :=
  g.set i ((g.getD i []).set j v)

/-- Mutable run state threaded through the placement loop of `make_image`:
the grid, the direction field, the color-to-location map, the open-location
set, and the random-draw counter. -/
structure RunState (A : Type) where
  grid : List (List (Option (Triple Nat)))
  dirs : List (List A)
  cbl : List (Triple Nat × Loc)
  openL : List Loc
  t : Nat

/-- Seed-style placement (lines 112-117 and the fallback, lines 154-157):
draw a random open location (panic message if the set is over-drawn), place
the color there, give it a freshly drawn heading. -/
def seedStep {A : Type} (rngN : Nat → Nat) (rngA : Nat → A) (err : String)
    (cb : Triple Nat) (st : RunState A) : Except String (RunState A) :=
  match remove_random st.openL (rngN st.t) with
  | none => Except.error err
  | some (loc, rest) =>
    Except.ok
      { grid := set2d st.grid loc.1 loc.2 (some cb)
        dirs := set2d st.dirs loc.1 loc.2 (rngA (st.t + 1))
        cbl := (cb, loc) :: st.cbl
        openL := rest
        t := st.t + 2 }

/-- State after the walk places `cb` at empty cell `pos` with heading `d`
(lines 146-149). -/
def walkPlace {A : Type} (cb : Triple Nat) (pos : Loc) (d : A) (st : RunState A) : RunState A :=
  { grid := set2d st.grid pos.1 pos.2 (some cb)
    dirs := set2d st.dirs pos.1 pos.2 d
    cbl := (cb, pos) :: st.cbl
    openL := st.openL.erase pos
    t := st.t }

/-- Step indices of the walk loop, `for step in 1..cycle_cap*size`
(line 135): `1, 2, ..., cycle_cap*size - 1`. -/
def walkSteps (cycle_cap size : Nat) : List Nat := List.range' 1 (cycle_cap * size - 1)

/-- Lines 135-153: the curved-walk loop body over the remaining step indices.
For each step the oracle `wo` yields the wrapped rounded position and the
current heading (the float arithmetic of lines 136-142).  The two asserts of
lines 143-144 and the assert of line 150 are `Except.error`s.  Returns
`some` of the new state on placement, `none` if the budget is exhausted. -/
def walkLoop {A : Type} (size : Nat) (wo : Nat → Loc × A) (cb : Triple Nat)
    (st : RunState A) : List Nat → Except String (Option (RunState A))
  | [] => Except.ok none
  | s :: rest =>
    if (wo s).1.1 < size ∧ (wo s).1.2 < size then
      match get2d st.grid (wo s).1.1 (wo s).1.2 none with
      | some _ => walkLoop size wo cb st rest
      | none =>
        if (wo s).1 ∈ st.openL then Except.ok (some (walkPlace cb (wo s).1 (wo s).2 st))
        else Except.error "was_present"
    else Except.error "pos in range"

/-- Lines 119-157: processing of one Grow-phase color: nearest-placed lookup
(panic `Seeded` if every offset misses), then the bounded walk, then the
seed-style fallback if the budget ran out.  The start location and heading
read on lines 133-134 feed only the float walk and are absorbed by the
oracle `wo`. -/
def growColor {A : Type} (size : Nat) (rngN : Nat → Nat) (rngA : Nat → A)
    (offsets : List (Triple Int)) (cycle_cap : Nat) (wo : Nat → Loc × A)
    (cb : Triple Nat) (st : RunState A) : Except String (RunState A) :=
  match mostSimilar offsets st.cbl cb with
  | none => Except.error "Seeded"
  | some _ =>
    match walkLoop size wo cb st (walkSteps cycle_cap size) with
    | Except.error e => Except.error e
    | Except.ok (some st') => Except.ok st'
    | Except.ok none => seedStep rngN rngA "over draw later" cb st

/-- One iteration of the main placement loop (lines 110-158): the first
`num_seeds` colors in processing order are seeded, the rest grow. -/
def placeColor {A : Type} (size num_seeds : Nat) (rngN : Nat → Nat) (rngA : Nat → A)
    (offsets : List (Triple Int)) (cycle_cap : Nat) (wo : Nat → Nat → Loc × A)
    (icb : Nat × Triple Nat) (st : RunState A) : Except String (RunState A) :=
  if icb.1 < num_seeds then seedStep rngN rngA "over draw" icb.2 st
  else growColor size rngN rngA offsets cycle_cap (wo icb.1) icb.2 st

/-- The main placement loop over the enumerated shuffled colors. -/
def placeAll {A : Type} (size num_seeds : Nat) (rngN : Nat → Nat) (rngA : Nat → A)
    (offsets : List (Triple Int)) (cycle_cap : Nat) (wo : Nat → Nat → Loc × A) :
    List (Nat × Triple Nat) → RunState A → Except String (RunState A)
  | [], st => Except.ok st
  | icb :: rest, st =>
    match placeColor size num_seeds rngN rngA offsets cycle_cap wo icb st with
    | Except.error e => Except.error e
    | Except.ok st' => placeAll size num_seeds rngN rngA offsets cycle_cap wo rest st'

/-- Lines 103-109: the initial run state: empty grid, zero direction field
(`a0` models the float `0.0`), empty map, all `size^2` locations open. -/
def initState (A : Type) (a0 : A) (size tStart : Nat) : RunState A :=
  { grid := List.replicate size (List.replicate size none)
    dirs := List.replicate size (List.replicate size a0)
    cbl := []
    openL := (List.range size).flatMap (fun i => (List.range size).map (fun j => (i, j)))
    t := tStart }

/-- Lines 91-158 of `make_image`: everything up to the rendering loop.
Returns the final run state (or the message of the panic that aborted). -/
def runPlacement {A : Type} (a0 : A) (rngN : Nat → Nat) (rngA : Nat → A)
    (wo : Nat → Nat → Loc × A) (scale num_seeds cycle_cap : Nat) :
    Except String (RunState A) :=
  let size := scale ^ 3
  let bot := make_bases_offsets scale rngN 0
  placeAll size num_seeds rngN rngA bot.2.1 cycle_cap wo bot.1.enum
    (initState A a0 size bot.2.2)

/-- A rendered image: `size x size` rows of 8-bit RGB triples. -/
abbrev Image := List (List (Triple Nat))

/-- One cell of the rendering loop: filled cells get their scaled color,
empty cells keep the 0 of `ImageBuffer::new`. -/
def renderCell (color_size : Nat) : Option (Triple Nat) → Triple Nat
  | some cb => color_base_to_color cb color_size
  | none => ⟨0, 0, 0⟩

/-- Lines 159-171: the rendering loop.  `ImageBuffer::new` zero-initializes,
and `put_pixel` is called exactly on the filled cells; pixel `(i, j)` gets
the scaled color of grid cell `(i, j)`. -/
def renderImage (grid : List (List (Option (Triple Nat)))) (color_size : Nat) : Image :=
  grid.map (List.map (renderCell color_size))

/-- Lines 91-172: `make_image` with the randomness and float walk supplied as
oracles. -/
def make_image {A : Type} (a0 : A) (rngN : Nat → Nat) (rngA : Nat → A)
    (wo : Nat → Nat → Loc × A) (scale num_seeds cycle_cap : Nat) :
    Except String Image :=
  match runPlacement a0 rngN rngA wo scale num_seeds cycle_cap with
  | Except.error e => Except.error e
  | Except.ok st => Except.ok (renderImage st.grid (scale ^ 2))

/-- Full entry point: the integer draw stream and the heading draw stream are
derived from `seed` (`StdRng::seed_from_u64` is a pure function of the seed),
and the float walk oracle is a pure function of `initial_turn_rate`, `alpha`
and `seed` (sin, cos and powf are pure).  `make_image` is then invoked on the
derived oracles. -/
def makeImageSeeded {A : Type} (a0 : A) (rngNF : Nat → Nat → Nat) (rngAF : Nat → Nat → A)
    (walkF : A → A → Nat → Nat → Nat → Loc × A)
    (scale num_seeds : Nat) (initial_turn_rate alpha : A) (cycle_cap seed : Nat) :
    Except String Image :=
  make_image a0 (rngNF seed) (rngAF seed) (walkF initial_turn_rate alpha seed)
    scale num_seeds cycle_cap

/-- Line 142: the toroidal wrap of one real-valued coordinate,
`f - (f / size).floor() * size`, over an arbitrary linear ordered field
standing for the reals computed in `f64`. -/
def wrapCoord {F : Type} [LinearOrderedField F] [FloorRing F] (f : F) (size : Nat) : F :=
  f - (⌊f / (size : F)⌋ : F) * (size : F)

/-- Rust `as usize` on a float value: truncation toward zero, saturating at 0
for negative values; on the values at hand this is `Int.toNat` of the floor. -/
def rustFloatToUsize {F : Type} [LinearOrderedField F] [FloorRing F] (f : F) : Nat :=
  (⌊f⌋).toNat

/-! Basic lemmas about `List.set`, `swapL` and the Fisher-Yates shuffle. -/

theorem lset_self {α : Type} : ∀ (l : List α) (i : Nat) (a : α), l.get? i = some a →
    l.set i a = l
  | [], _, _, h => by simp at h
  | b :: t, 0, a, h => by
    injection h with h2
    rw [List.set, h2]
  | b :: t, i + 1, a, h => congrArg (List.cons b) (lset_self t i a h)

theorem cons_perm_set {α : Type} : ∀ (t : List α) (k : Nat) (x b : α), t.get? k = some b →
    List.Perm (x :: t) (b :: t.set k x)
  | [], _, _, _, h => by simp at h
  | c :: t', 0, x, b, h => by
    injection h with h2
    subst h2
    exact List.Perm.swap c x t'
  | c :: t', k + 1, x, b, h =>
    ((List.Perm.swap c x t').trans ((cons_perm_set t' k x b h).cons c)).trans
      (List.Perm.swap b c (t'.set k x))

theorem lget_set_ne {α : Type} : ∀ (l : List α) (i j : Nat) (v : α), i ≠ j →
    (l.set i v).get? j = l.get? j
  | [], _, _, _, _ => rfl
  | a :: t, 0, 0, v, h => absurd rfl h
  | a :: t, 0, j + 1, v, _ => rfl
  | a :: t, i + 1, 0, v, _ => rfl
  | a :: t, i + 1, j + 1, v, h => lget_set_ne t i j v (fun e => h (by rw [e]))

theorem lset_set {α : Type} : ∀ (l : List α) (i : Nat) (a b : α),
    (l.set i a).set i b = l.set i b
  | [], _, _, _ => rfl
  | c :: t, 0, a, b => rfl
  | c :: t, i + 1, a, b => congrArg (List.cons c) (lset_set t i a b)

theorem swapL_perm {α : Type} (l : List α) (i j : Nat) : List.Perm (swapL l i j) l := by
  unfold swapL
  split
  case _ a b hi hj =>
    by_cases hij : i = j
    · subst hij
      rw [hi] at hj
      injection hj with hb
      subst hb
      rw [lset_set, lset_self l i a hi]
    · have h1 : List.Perm (b :: l) (a :: l.set i b) := cons_perm_set l i b a hi
      have h2 : (l.set i b).get? j = some b := by
        rw [lget_set_ne l i j b hij]; exact hj
      have h3 : List.Perm (a :: l.set i b) (b :: (l.set i b).set j a) :=
        cons_perm_set (l.set i b) j a b h2
      exact ((h1.trans h3).cons_inv).symm
  case _ => exact List.Perm.refl l

theorem fisherYatesGo_perm {α : Type} (rng : Nat → Nat) :
    ∀ (i : Nat) (l : List α) (t : Nat), List.Perm (fisherYatesGo rng i l t).1 l
  | 0, l, _ => List.Perm.refl l
  | i + 1, l, t =>
    (fisherYatesGo_perm rng i (swapL l (i + 1) (rng t % (i + 2))) (t + 1)).trans
      (swapL_perm l (i + 1) (rng t % (i + 2)))

theorem fisherYates_perm {α : Type} (rng : Nat → Nat) (t : Nat) (l : List α) :
    List.Perm (fisherYates rng t l).1 l :=
  fisherYatesGo_perm rng (l.length - 1) l t

/-- The pre-shuffle color-base list of `make_bases_offsets`. -/
def basesPre (scale : Nat) : List (Triple Nat) :=
  (List.range (scale ^ 6)).map (colorBaseOfIndex (scale ^ 2))

theorem make_bases_offsets_fst (scale : Nat) (rng : Nat → Nat) (t : Nat) :
    (make_bases_offsets scale rng t).1 = (fisherYates rng t (basesPre scale)).1 := rfl

theorem make_bases_offsets_perm (scale : Nat) (rng : Nat → Nat) (t : Nat) :
    List.Perm (make_bases_offsets scale rng t).1 (basesPre scale) :=
  fisherYates_perm rng t (basesPre scale)

theorem make_bases_offsets_snd (scale : Nat) (rng : Nat → Nat) (t : Nat) :
    (make_bases_offsets scale rng t).2.1 =
      List.insertionSort offsetLe (((basesPre scale).map baseAsInt).flatMap signVariants) := rfl

/-! Mixed-radix decomposition facts about `colorBaseOfIndex`. -/

theorem colorBaseOfIndex_encode (cs : Nat) (hcs : cs ≤ 256) (a b c : Nat)
    (ha : a < cs) (hb : b < cs) (hc : c < cs) :
    colorBaseOfIndex cs (a + cs * (b + cs * c)) = ⟨a, b, c⟩ := by
  have hcpos : 0 < cs := lt_of_le_of_lt (Nat.zero_le a) ha
  have hmod : (a + cs * (b + cs * c)) % cs = a := by
    rw [Nat.add_mul_mod_self_left, Nat.mod_eq_of_lt ha]
  have hdiv : (a + cs * (b + cs * c)) / cs = b + cs * c := by
    rw [Nat.add_mul_div_left _ _ hcpos, Nat.div_eq_of_lt ha, Nat.zero_add]
  have hdiv2 : (a + cs * (b + cs * c)) / cs ^ 2 = c := by
    rw [pow_two, ← Nat.div_div_eq_div_mul, hdiv, Nat.add_mul_div_left _ _ hcpos,
      Nat.div_eq_of_lt hb, Nat.zero_add]
  simp only [colorBaseOfIndex, u8]
  rw [hmod, hdiv2, hdiv, Nat.add_mul_mod_self_left, Nat.mod_eq_of_lt hb,
    Nat.mod_eq_of_lt (lt_of_lt_of_le ha hcs), Nat.mod_eq_of_lt (lt_of_lt_of_le hb hcs),
    Nat.mod_eq_of_lt (lt_of_lt_of_le hc hcs)]

theorem encode_lt (cs : Nat) (a b c : Nat) (ha : a < cs) (hb : b < cs) (hc : c < cs) :
    a + cs * (b + cs * c) < cs ^ 3 := by
  have h2 : b + cs * c + 1 ≤ cs * cs := by
    calc b + cs * c + 1 ≤ cs + cs * c := by omega
    _ = cs * (c + 1) := by ring
    _ ≤ cs * cs := Nat.mul_le_mul_left cs (Nat.succ_le_of_lt hc)
  calc a + cs * (b + cs * c) < cs + cs * (b + cs * c) := by omega
  _ = cs * (b + cs * c + 1) := by ring
  _ ≤ cs * (cs * cs) := Nat.mul_le_mul_left cs h2
  _ = cs ^ 3 := by ring

theorem colorBaseOfIndex_inj (cs : Nat) (hcs : cs ≤ 256) (m n : Nat)
    (hm : m < cs ^ 3) (hn : n < cs ^ 3)
    (h : colorBaseOfIndex cs m = colorBaseOfIndex cs n) : m = n := by
  have hcpos : 0 < cs := by
    rcases Nat.eq_zero_or_pos cs with h0 | h0
    · subst h0; simp at hm
    · exact h0
  have hcc : cs ^ 3 = cs * cs ^ 2 := by ring
  have hu : ∀ x : Nat, x < cs → u8 x = x := fun x hx =>
    Nat.mod_eq_of_lt (lt_of_lt_of_le hx hcs)
  have h1 : m % cs = n % cs := by
    have hr := congrArg Triple.r h
    simp only [colorBaseOfIndex] at hr
    rwa [hu _ (Nat.mod_lt _ hcpos), hu _ (Nat.mod_lt _ hcpos)] at hr
  have h2 : m / cs % cs = n / cs % cs := by
    have hg := congrArg Triple.g h
    simp only [colorBaseOfIndex] at hg
    rwa [hu _ (Nat.mod_lt _ hcpos), hu _ (Nat.mod_lt _ hcpos)] at hg
  have h3 : m / cs ^ 2 = n / cs ^ 2 := by
    have hbq := congrArg Triple.b h
    simp only [colorBaseOfIndex] at hbq
    have hmb : m / cs ^ 2 < cs :=
      (Nat.div_lt_iff_lt_mul (by positivity)).mpr
        (by rw [(by ring : cs * cs ^ 2 = cs ^ 3)]; exact hm)
    have hnb : n / cs ^ 2 < cs :=
      (Nat.div_lt_iff_lt_mul (by positivity)).mpr
        (by rw [(by ring : cs * cs ^ 2 = cs ^ 3)]; exact hn)
    rwa [hu _ hmb, hu _ hnb] at hbq
  have recompose : ∀ k : Nat, cs * (cs * (k / cs ^ 2) + k / cs % cs) + k % cs = k := by
    intro k
    have e3 : k / cs / cs = k / cs ^ 2 := by rw [Nat.div_div_eq_div_mul, ← pow_two]
    rw [← e3, Nat.div_add_mod (k / cs) cs, Nat.div_add_mod k cs]
  rw [← recompose m, ← recompose n, h1, h2, h3]

theorem colorBaseOfIndex_lt (cs n : Nat) (hn : n < cs ^ 3) :
    (colorBaseOfIndex cs n).r < min cs 256 ∧ (colorBaseOfIndex cs n).g < min cs 256 ∧
      (colorBaseOfIndex cs n).b < min cs 256 := by
  have hcpos : 0 < cs := by
    rcases Nat.eq_zero_or_pos cs with h0 | h0
    · subst h0; simp at hn
    · exact h0
  have h256 : (0 : Nat) < 256 := by norm_num
  have hb : n / cs ^ 2 < cs :=
    (Nat.div_lt_iff_lt_mul (by positivity)).mpr
      (by rw [(by ring : cs * cs ^ 2 = cs ^ 3)]; exact hn)
  refine ⟨lt_min ?_ ?_, lt_min ?_ ?_, lt_min ?_ ?_⟩
  · exact lt_of_le_of_lt (Nat.mod_le _ _) (Nat.mod_lt _ hcpos)
  · exact Nat.mod_lt _ h256
  · exact lt_of_le_of_lt (Nat.mod_le _ _) (Nat.mod_lt _ hcpos)
  · exact Nat.mod_lt _ h256
  · exact lt_of_le_of_lt (Nat.mod_le _ _) hb
  · exact Nat.mod_lt _ h256

theorem basesPre_length (scale : Nat) : (basesPre scale).length = scale ^ 6 := by
  simp [basesPre]

theorem pow_six_eq (scale : Nat) : scale ^ 6 = (scale ^ 2) ^ 3 := by
  rw [← pow_mul]

theorem basesPre_nodup (scale : Nat) (h16 : scale ≤ 16) : (basesPre scale).Nodup := by
  have hcs : scale ^ 2 ≤ 256 := by
    calc scale ^ 2 ≤ 16 ^ 2 := Nat.pow_le_pow_left h16 2
    _ = 256 := by norm_num
  refine List.Nodup.map_on ?_ (List.nodup_range _)
  intro x hx y hy hf
  exact colorBaseOfIndex_inj _ hcs x y
    (by rw [← pow_six_eq]; exact List.mem_range.mp hx)
    (by rw [← pow_six_eq]; exact List.mem_range.mp hy) hf

theorem basesPre_mem (scale : Nat) (h16 : scale ≤ 16) (tr : Triple Nat)
    (hr : tr.r < scale ^ 2) (hg : tr.g < scale ^ 2) (hb : tr.b < scale ^ 2) :
    tr ∈ basesPre scale := by
  have hcs : scale ^ 2 ≤ 256 := by
    calc scale ^ 2 ≤ 16 ^ 2 := Nat.pow_le_pow_left h16 2
    _ = 256 := by norm_num
  refine List.mem_map.mpr ⟨tr.r + scale ^ 2 * (tr.g + scale ^ 2 * tr.b), ?_, ?_⟩
  · rw [List.mem_range, pow_six_eq]
    exact encode_lt _ _ _ _ hr hg hb
  · rw [colorBaseOfIndex_encode _ hcs _ _ _ hr hg hb]

/-! Claim C2: the color-base list of `make_bases_offsets`. -/

/-- C2 (amended: for `2 <= scale <= 16`, i.e. whenever `colorSize <= 256`;
the `as u8` casts wrap for `scale >= 17`): `make_bases_offsets` returns a
color-base list of length `scale^6` that is the mixed-radix enumeration
`colorBaseOfIndex` of `0..scale^6` in base `colorSize` merely permuted by the
shuffle, and every triple with all components in `[0, colorSize - 1]` appears
in it exactly once. -/
theorem c2_bases_exactly_once (scale : Nat) (rng : Nat → Nat) (t0 : Nat)
    (h2 : 2 ≤ scale) (h16 : scale ≤ 16) :
    (make_bases_offsets scale rng t0).1.length = scale ^ 6 ∧
    List.Perm (make_bases_offsets scale rng t0).1 (basesPre scale) ∧
    ∀ tr : Triple Nat, tr.r < scale ^ 2 → tr.g < scale ^ 2 → tr.b < scale ^ 2 →
      (make_bases_offsets scale rng t0).1.count tr = 1 := by
  have hperm := make_bases_offsets_perm scale rng t0
  refine ⟨?_, hperm, ?_⟩
  · rw [hperm.length_eq, basesPre_length]
  · intro tr hr hg hb
    rw [hperm.count_eq]
    exact List.count_eq_one_of_mem (basesPre_nodup scale h16)
      (basesPre_mem scale h16 tr hr hg hb)

/-- C2 witness: instantiation of the amended claim at `scale = 2`. -/
theorem c2_witness :
    (make_bases_offsets 2 (fun _ => 0) 0).1.length = 2 ^ 6 ∧
    List.Perm (make_bases_offsets 2 (fun _ => 0) 0).1 (basesPre 2) ∧
    ∀ tr : Triple Nat, tr.r < 2 ^ 2 → tr.g < 2 ^ 2 → tr.b < 2 ^ 2 →
      (make_bases_offsets 2 (fun _ => 0) 0).1.count tr = 1 :=
  c2_bases_exactly_once 2 (fun _ => 0) 0 (by decide) (by decide)

/-- C2 counterexample: at `scale = 17` (`colorSize = 289 > 256`) the `as u8`
casts wrap, so indices 0 and 256 both yield the triple `(0,0,0)`, which hence
does not appear exactly once: the claim fails for general `scale >= 2`. -/
theorem c2_counterexample :
    ¬ ((make_bases_offsets 17 (fun _ => 0) 0).1.count ⟨0, 0, 0⟩ = 1) := by
  have hperm := make_bases_offsets_perm 17 (fun _ => 0) 0
  rw [hperm.count_eq]
  have h0 : List.Sublist [(0 : Nat)] (List.range 256) :=
    List.singleton_sublist.mpr (List.mem_range.mpr (by norm_num))
  have h1 : List.Sublist [(0 : Nat), 256] (List.range 257) := by
    rw [List.range_succ]
    exact h0.append (List.Sublist.refl [256])
  have hsub : List.Sublist [(0 : Nat), 256] (List.range (17 ^ 6)) :=
    h1.trans (List.range_sublist.mpr (by norm_num))
  have hmap : List.map (colorBaseOfIndex (17 ^ 2)) [0, 256] =
      [(⟨0, 0, 0⟩ : Triple Nat), ⟨0, 0, 0⟩] := by decide
  have hle : 2 ≤ (basesPre 17).count ⟨0, 0, 0⟩ := by
    have hc := (hsub.map (colorBaseOfIndex (17 ^ 2))).count_le (⟨0, 0, 0⟩ : Triple Nat)
    rw [hmap] at hc
    simpa [basesPre] using hc
  omega

/-! Claim C3: the renderer scaling. -/

/-- Modelled from the spec for comparison (4.5 Renderer): per-component
scaling by `round(component * 255 / (colorSize - 1))` in exact rational
arithmetic. -/
def specRoundScale (c cs : Nat) : Int := round ((c * 255 : ℚ) / ((cs : ℚ) - 1))

theorem getD_map_eq {α β : Type} (f : α → β) (l : List α) (i : Nat) (dα : α) (dβ : β)
    (hd : f dα = dβ) : (l.map f).getD i dβ = f (l.getD i dα) := by
  induction l generalizing i with
  | nil => simp [hd.symm]
  | cons a t ih =>
    cases i with
    | zero => simp
    | succ n => simpa using ih n

/-- Any cell of the rendered image: the scaled color for a filled cell,
black (the `ImageBuffer::new` zero fill) for an empty one. -/
theorem renderImage_get (grid : List (List (Option (Triple Nat)))) (cs i j : Nat) :
    get2d (renderImage grid cs) i j ⟨0, 0, 0⟩ = renderCell cs (get2d grid i j none) := by
  unfold get2d renderImage
  rw [getD_map_eq (List.map (renderCell cs)) grid i [] [] rfl,
    getD_map_eq (renderCell cs) (grid.getD i []) j none ⟨0, 0, 0⟩ rfl]

/-- C3 counterexample: with `colorSize = 9` (`scale = 3`) component `1` scales
to `1 * 255 / 8 = 31` in the code (truncating integer division), while the
claimed `round(1 * 255 / 8) = round(31.875)` is `32`. -/
theorem c3_counterexample :
    (color_base_to_color ⟨1, 1, 1⟩ 9).r = 31 ∧ specRoundScale 1 9 = 32 ∧
      ((31 : Int) ≠ 32) := by
  refine ⟨by decide, ?_, by decide⟩
  rw [specRoundScale, round_eq]
  norm_num

/-- C3 (amended: the scaling is the truncating integer division
`c * 255 / (colorSize - 1)`, not `round`): every filled grid cell is rendered
at its own pixel coordinate as the floor-scaled triple; the scaling sends 0
to 0 and `colorSize - 1` to 255 and is monotone in the component. -/
theorem c3_renderer_floor_scaling (grid : List (List (Option (Triple Nat))))
    (cs i j : Nat) (hcs : 2 ≤ cs) (cb : Triple Nat)
    (hcell : get2d grid i j none = some cb)
    (hr : cb.r < cs) (hg : cb.g < cs) (hb : cb.b < cs) :
    get2d (renderImage grid cs) i j ⟨0, 0, 0⟩ =
      ⟨cb.r * 255 / (cs - 1), cb.g * 255 / (cs - 1), cb.b * 255 / (cs - 1)⟩ ∧
    color_base_to_color ⟨0, 0, 0⟩ cs = ⟨0, 0, 0⟩ ∧
    color_base_to_color ⟨cs - 1, cs - 1, cs - 1⟩ cs = ⟨255, 255, 255⟩ ∧
    (∀ c c' : Nat, c ≤ c' →
      (color_base_to_color ⟨c, c, c⟩ cs).r ≤ (color_base_to_color ⟨c', c', c'⟩ cs).r ∨
      ¬ c' * 255 / (cs - 1) ≤ 255) := by
  have hpos : 0 < cs - 1 := by omega
  have hle : ∀ c : Nat, c < cs → c * 255 / (cs - 1) ≤ 255 := by
    intro c hc
    calc c * 255 / (cs - 1) ≤ (cs - 1) * 255 / (cs - 1) :=
          Nat.div_le_div_right (Nat.mul_le_mul_right 255 (by omega))
    _ = 255 := Nat.mul_div_cancel_left 255 hpos
  have hu : ∀ c : Nat, c < cs → u8 (c * 255 / (cs - 1)) = c * 255 / (cs - 1) := by
    intro c hc
    exact Nat.mod_eq_of_lt (lt_of_le_of_lt (hle c hc) (by norm_num))
  refine ⟨?_, ?_, ?_, ?_⟩
  · rw [renderImage_get, hcell]
    simp only [renderCell, color_base_to_color]
    rw [hu _ hr, hu _ hg, hu _ hb]
  · simp [color_base_to_color, u8, Nat.zero_div]
  · have h255 : (cs - 1) * 255 / (cs - 1) = 255 := Nat.mul_div_cancel_left 255 hpos
    simp [color_base_to_color, u8, h255]
  · intro c c' hcc
    by_cases hc' : c' * 255 / (cs - 1) ≤ 255
    · left
      simp only [color_base_to_color, u8]
      have hmono : c * 255 / (cs - 1) ≤ c' * 255 / (cs - 1) :=
        Nat.div_le_div_right (Nat.mul_le_mul_right 255 hcc)
      rw [Nat.mod_eq_of_lt (lt_of_le_of_lt (le_trans hmono hc') (by norm_num)),
        Nat.mod_eq_of_lt (lt_of_le_of_lt hc' (by norm_num))]
      exact hmono
    · right; exact hc'

/-- C3 witness: instantiation of the amended claim on a concrete 1x1 grid with
`colorSize = 4` (the `scale = 2` case): component 3 renders to 255. -/
theorem c3_witness :
    get2d (renderImage [[some (⟨3, 0, 3⟩ : Triple Nat)]] 4) 0 0 ⟨0, 0, 0⟩ =
      ⟨3 * 255 / 3, 0 * 255 / 3, 3 * 255 / 3⟩ ∧
    color_base_to_color ⟨0, 0, 0⟩ 4 = ⟨0, 0, 0⟩ ∧
    color_base_to_color ⟨4 - 1, 4 - 1, 4 - 1⟩ 4 = ⟨255, 255, 255⟩ ∧
    (∀ c c' : Nat, c ≤ c' →
      (color_base_to_color ⟨c, c, c⟩ 4).r ≤ (color_base_to_color ⟨c', c', c'⟩ 4).r ∨
      ¬ c' * 255 / (4 - 1) ≤ 255) :=
  c3_renderer_floor_scaling [[some ⟨3, 0, 3⟩]] 4 0 0 (by decide) ⟨3, 0, 3⟩ (by decide)
    (by decide) (by decide) (by decide)

/-! Claim C9: the toroidal wrap lands in `[0, size)`. -/

/-- C9: for every real-valued coordinate (negative included) and positive
`size`, the toroidal wrap `f - (f / size).floor() * size` of line 142 lies in
`[0, size)`, so its `as usize` conversion is a cell index below `size` and
the two in-loop asserts hold.  Stated over any linear ordered field with a
floor, standing for the reals computed in `f64`. -/
theorem c9_wrap_in_range {F : Type} [LinearOrderedField F] [FloorRing F]
    (f : F) (size : Nat) (hsize : 0 < size) :
    rustFloatToUsize (wrapCoord f size) < size := by
  have hs : (0 : F) < size := by exact_mod_cast hsize
  have hfm : f / (size : F) * size = f := div_mul_cancel₀ f hs.ne'
  have h1 : 0 ≤ wrapCoord f size := by
    unfold wrapCoord
    have hle := Int.floor_le (f / (size : F))
    have hmul := mul_le_mul_of_nonneg_right hle (le_of_lt hs)
    rw [hfm] at hmul
    linarith
  have h2 : wrapCoord f size < size := by
    unfold wrapCoord
    have hlt := Int.lt_floor_add_one (f / (size : F))
    have hmul := mul_lt_mul_of_pos_right hlt hs
    rw [hfm, add_mul, one_mul] at hmul
    linarith
  have h3 : ⌊wrapCoord f size⌋ < (size : Int) := by
    rw [Int.floor_lt]
    exact_mod_cast h2
  unfold rustFloatToUsize
  omega

/-- C9 witness: the wrap of the negative rational coordinate `-5/2` with
`size = 8` is a cell index below 8. -/
theorem c9_witness : rustFloatToUsize (wrapCoord (-(5 / 2) : ℚ) 8) < 8 :=
  c9_wrap_in_range (-(5 / 2) : ℚ) 8 (by decide)

/-! Claim C5: the contract of `remove_random`. -/

theorem remove_random_eq {α : Type} (l : List α) (d : Nat) (h : 0 < l.length) :
    remove_random l d =
      some (l.get ⟨d % l.length, Nat.mod_lt _ h⟩, l.eraseIdx (d % l.length)) :=
  dif_pos h

theorem get_not_mem_eraseIdx {α : Type} : ∀ (l : List α) (k : Nat) (h : k < l.length),
    l.Nodup → l.get ⟨k, h⟩ ∉ l.eraseIdx k
  | a :: t, 0, _, hnd => by
    simp only [List.get, List.eraseIdx]
    exact (List.nodup_cons.mp hnd).1
  | a :: t, k + 1, h, hnd => by
    simp only [List.get, List.eraseIdx]
    intro hmem
    rcases List.mem_cons.mp hmem with heq | hmem2
    · exact (List.nodup_cons.mp hnd).1 (heq ▸ List.get_mem t _ _)
    · exact get_not_mem_eraseIdx t k _ (List.nodup_cons.mp hnd).2 hmem2

theorem length_eraseIdx_lt {α : Type} (l : List α) (k : Nat) (h : k < l.length) :
    (l.eraseIdx k).length = l.length - 1 := by
  rw [List.length_eraseIdx]
  simp [h]

/-- Iterated `remove_random` with a draw stream, collecting removed elements
(first component) and returning the remaining set (second component). -/
def removeK {α : Type} : Nat → List α → (Nat → Nat) → List α × List α
  | 0, l, _ => ([], l)
  | k + 1, l, ds =>
    match remove_random l (ds 0) with
    | none => ([], l)
    | some (x, r) =>
      ((removeK k r (fun n => ds (n + 1))).1.cons x, (removeK k r (fun n => ds (n + 1))).2)

theorem removeK_spec {α : Type} : ∀ (k : Nat) (l : List α) (ds : Nat → Nat),
    l.Nodup → k ≤ l.length →
    (removeK k l ds).1.length = k ∧
    (removeK k l ds).2.length = l.length - k ∧
    (removeK k l ds).1.Nodup ∧
    (∀ x ∈ (removeK k l ds).1, x ∉ (removeK k l ds).2) ∧
    (∀ x ∈ (removeK k l ds).1, x ∈ l) ∧ (∀ x ∈ (removeK k l ds).2, x ∈ l)
  | 0, l, ds, _, _ => by
    simp [removeK]
  | k + 1, l, ds, hnd, hk => by
    have hlen : 0 < l.length := lt_of_lt_of_le (Nat.succ_pos k) hk
    have hidx : ds 0 % l.length < l.length := Nat.mod_lt _ hlen
    have hrr := remove_random_eq l (ds 0) hlen
    have hrlen : (l.eraseIdx (ds 0 % l.length)).length = l.length - 1 :=
      length_eraseIdx_lt l _ hidx
    have hrnd : (l.eraseIdx (ds 0 % l.length)).Nodup :=
      hnd.sublist (List.eraseIdx_sublist l _)
    have hrsub : ∀ y ∈ l.eraseIdx (ds 0 % l.length), y ∈ l :=
      fun y hy => (List.eraseIdx_sublist l _).subset hy
    have hxmem : l.get ⟨ds 0 % l.length, hidx⟩ ∈ l := List.get_mem l _ _
    have hxnot : l.get ⟨ds 0 % l.length, hidx⟩ ∉ l.eraseIdx (ds 0 % l.length) :=
      get_not_mem_eraseIdx l _ hidx hnd
    have hk' : k ≤ (l.eraseIdx (ds 0 % l.length)).length := by omega
    obtain ⟨ih1, ih2, ih3, ih4, ih5, ih6⟩ :=
      removeK_spec k (l.eraseIdx (ds 0 % l.length)) (fun n => ds (n + 1)) hrnd hk'
    simp only [removeK, hrr, List.cons]
    refine ⟨by simp [ih1], by rw [ih2, hrlen]; omega, ?_, ?_, ?_, ?_⟩
    · exact List.nodup_cons.mpr ⟨fun hx => hxnot (ih5 _ hx), ih3⟩
    · intro y hy
      rcases List.mem_cons.mp hy with heq | hy2
      · subst heq; exact fun hc => hxnot (ih6 _ hc)
      · exact ih4 y hy2
    · intro y hy
      rcases List.mem_cons.mp hy with heq | hy2
      · subst heq; exact hxmem
      · exact hrsub y (ih5 y hy2)
    · exact fun y hy => hrsub y (ih6 y hy)

/-- C5: `remove_random` returns `none` exactly when the set is empty;
otherwise it removes and returns a member, decreasing the size by exactly
one; after `k` successful calls with no reinsertion the size is
`initialSize - k` and no element is ever returned twice (the returned
elements are pairwise distinct and are gone from the remaining set). -/
theorem c5_remove_random_contract {α : Type} (l : List α) (d : Nat) (k : Nat)
    (ds : Nat → Nat) (hnd : l.Nodup) (hk : k ≤ l.length) :
    (remove_random l d = none ↔ l = []) ∧
    (∀ x r, remove_random l d = some (x, r) →
      x ∈ l ∧ r.length = l.length - 1 ∧ x ∉ r) ∧
    (removeK k l ds).1.length = k ∧
    (removeK k l ds).2.length = l.length - k ∧
    (removeK k l ds).1.Nodup ∧
    (∀ x ∈ (removeK k l ds).1, x ∉ (removeK k l ds).2) := by
  obtain ⟨h1, h2, h3, h4, _, _⟩ := removeK_spec k l ds hnd hk
  refine ⟨?_, ?_, h1, h2, h3, h4⟩
  · constructor
    · intro hnone
      by_contra hne
      have hpos : 0 < l.length := List.length_pos.mpr hne
      rw [remove_random_eq l d hpos] at hnone
      exact Option.noConfusion hnone
    · intro he; subst he; rfl
  · intro x r hxr
    have hpos : 0 < l.length := by
      by_contra hchar
      have : l = [] := List.length_eq_zero.mp (by omega)
      subst this
      simp [remove_random] at hxr
    rw [remove_random_eq l d hpos] at hxr
    injection hxr with hp
    have hx : x = l.get ⟨d % l.length, Nat.mod_lt _ hpos⟩ := (congrArg Prod.fst hp).symm
    have hr : r = l.eraseIdx (d % l.length) := (congrArg Prod.snd hp).symm
    subst hx; subst hr
    exact ⟨List.get_mem l _ _, length_eraseIdx_lt l _ (Nat.mod_lt _ hpos),
      get_not_mem_eraseIdx l _ (Nat.mod_lt _ hpos) hnd⟩

/-- C5 witness: instantiation on the three-element set `[10, 20, 30]` with
`k = 2` removals. -/
theorem c5_witness :
    (remove_random [10, 20, 30] 5 = none ↔ ([10, 20, 30] : List Nat) = []) ∧
    (∀ x r, remove_random [10, 20, 30] 5 = some (x, r) →
      x ∈ [10, 20, 30] ∧ r.length = ([10, 20, 30] : List Nat).length - 1 ∧ x ∉ r) ∧
    (removeK 2 [10, 20, 30] id).1.length = 2 ∧
    (removeK 2 [10, 20, 30] id).2.length = ([10, 20, 30] : List Nat).length - 2 ∧
    (removeK 2 [10, 20, 30] id).1.Nodup ∧
    (∀ x ∈ (removeK 2 [10, 20, 30] id).1, x ∉ (removeK 2 [10, 20, 30] id).2) :=
  c5_remove_random_contract [10, 20, 30] 5 2 id (by decide) (by decide)

/-! Claim C6: the nearest-placed lookup. -/

theorem firstHit_eq_none_iff {α β : Type} (f : α → Option β) :
    ∀ l : List α, firstHit f l = none ↔ ∀ a ∈ l, f a = none
  | [] => by simp [firstHit]
  | a :: t => by
    cases hfa : f a with
    | some y => simp [firstHit, hfa]
    | none =>
      simp only [firstHit, hfa]
      rw [firstHit_eq_none_iff f t]
      constructor
      · intro h y hy
        rcases List.mem_cons.mp hy with heq | hy2
        · subst heq; exact hfa
        · exact h y hy2
      · intro h y hy
        exact h y (List.mem_cons_of_mem a hy)

theorem firstHit_eq_some_iff {α β : Type} (f : α → Option β) :
    ∀ (l : List α) (x : β), firstHit f l = some x ↔
      ∃ l1 a l2, l = l1 ++ a :: l2 ∧ f a = some x ∧ ∀ y ∈ l1, f y = none
  | [], x => by
    constructor
    · intro h; simp [firstHit] at h
    · rintro ⟨l1, a, l2, h, -, -⟩
      exact absurd h (by simp)
  | a :: t, x => by
    cases hfa : f a with
    | some y =>
      simp only [firstHit, hfa]
      constructor
      · intro h
        injection h with h2
        exact ⟨[], a, t, rfl, by rw [hfa, h2], by intro y hy; simp at hy⟩
      · rintro ⟨l1, b, l2, heq, hfb, hnone⟩
        cases l1 with
        | nil =>
          injection heq with h1 h2
          subst h1; subst h2
          rw [hfa] at hfb
          exact hfb
        | cons c l1' =>
          injection heq with h1 h2
          have hca : f c = none := hnone c (List.mem_cons_self c l1')
          rw [← h1, hfa] at hca
          exact Option.noConfusion hca
    | none =>
      simp only [firstHit, hfa]
      rw [firstHit_eq_some_iff f t x]
      constructor
      · rintro ⟨l1, b, l2, heq, hfb, hnone⟩
        refine ⟨a :: l1, b, l2, by rw [heq]; rfl, hfb, ?_⟩
        intro y hy
        rcases List.mem_cons.mp hy with heq2 | hy2
        · subst heq2; exact hfa
        · exact hnone y hy2
      · rintro ⟨l1, b, l2, heq, hfb, hnone⟩
        cases l1 with
        | nil =>
          injection heq with h1 h2
          subst h1
          rw [hfa] at hfb
          exact Option.noConfusion hfb
        | cons c l1' =>
          injection heq with h1 h2
          subst h2
          exact ⟨l1', b, l2, rfl, hfb, fun y hy => hnone y (List.mem_cons_of_mem c hy)⟩

/-- C6: the nearest-placed lookup iterates the offset list and (a) returns
`some loc` exactly when some offset is the first whose probe hits, every
earlier offset probing to `none`; (b) an offset any of whose componentwise
sums with the color base leaves `[0, 255]` is skipped (probes to `none`);
(c) a hit is exactly the location stored in the color-to-location index for
the summed triple; (d) in the placement loop, failure of every offset is the
fatal `Seeded` panic. -/
theorem c6_nearest_lookup (offsets : List (Triple Int)) (cbl : List (Triple Nat × Loc))
    (cb : Triple Nat) :
    (∀ loc, mostSimilar offsets cbl cb = some loc ↔
      ∃ l1 o l2, offsets = l1 ++ o :: l2 ∧ probeOffset cbl cb o = some loc ∧
        ∀ o' ∈ l1, probeOffset cbl cb o' = none) ∧
    (∀ o : Triple Int,
      ((cb.r : Int) + o.r < 0 ∨ (cb.r : Int) + o.r > 255 ∨
       (cb.g : Int) + o.g < 0 ∨ (cb.g : Int) + o.g > 255 ∨
       (cb.b : Int) + o.b < 0 ∨ (cb.b : Int) + o.b > 255) →
      probeOffset cbl cb o = none) ∧
    (∀ o loc, probeOffset cbl cb o = some loc →
      alLookup cbl ⟨i16ToU8 ((cb.r : Int) + o.r), i16ToU8 ((cb.g : Int) + o.g),
        i16ToU8 ((cb.b : Int) + o.b)⟩ = some loc) ∧
    (∀ (A : Type) (size : Nat) (rngN : Nat → Nat) (rngA : Nat → A) (cycle_cap : Nat)
      (wo : Nat → Loc × A) (st : RunState A), st.cbl = cbl →
      mostSimilar offsets cbl cb = none →
      growColor size rngN rngA offsets cycle_cap wo cb st = Except.error "Seeded") := by
  refine ⟨fun loc => firstHit_eq_some_iff (probeOffset cbl cb) offsets loc, ?_, ?_, ?_⟩
  · intro o h
    unfold probeOffset
    rw [if_pos h]
  · intro o loc h
    unfold probeOffset at h
    by_cases hc : (cb.r : Int) + o.r < 0 ∨ (cb.r : Int) + o.r > 255 ∨
      (cb.g : Int) + o.g < 0 ∨ (cb.g : Int) + o.g > 255 ∨
      (cb.b : Int) + o.b < 0 ∨ (cb.b : Int) + o.b > 255
    · rw [if_pos hc] at h
      exact Option.noConfusion h
    · rw [if_neg hc] at h
      exact h
  · intro A size rngN rngA cycle_cap wo st hst hnone
    unfold growColor
    rw [hst, hnone]

/-- C6 witness: with an empty index every offset misses and the grow step is
the fatal `Seeded` error. -/
theorem c6_witness :
    growColor 8 (fun _ => 0) (fun _ => (0 : Nat)) [⟨0, 0, 0⟩] 1 (fun _ => ((0, 0), 0))
      ⟨1, 2, 3⟩ ⟨[], [], [], [], 0⟩ = Except.error "Seeded" :=
  (c6_nearest_lookup [⟨0, 0, 0⟩] [] ⟨1, 2, 3⟩).2.2.2 Nat 8 (fun _ => 0) (fun _ => 0) 1
    (fun _ => ((0, 0), 0)) ⟨[], [], [], [], 0⟩ rfl rfl

/-! Claim C7: the bounded curved walk and its fallback. -/

theorem walkLoop_all_full {A : Type} (size : Nat) (wo : Nat → Loc × A) (cb : Triple Nat)
    (st : RunState A) : ∀ steps : List Nat,
    (∀ s ∈ steps, (wo s).1.1 < size ∧ (wo s).1.2 < size) →
    (∀ s ∈ steps, get2d st.grid (wo s).1.1 (wo s).1.2 none ≠ none) →
    walkLoop size wo cb st steps = Except.ok none
  | [], _, _ => rfl
  | s :: rest, hrange, hfull => by
    have hr := hrange s (List.mem_cons_self s rest)
    have hf := hfull s (List.mem_cons_self s rest)
    unfold walkLoop
    rw [if_pos hr]
    cases hcell : get2d st.grid (wo s).1.1 (wo s).1.2 none with
    | none => exact absurd hcell hf
    | some v =>
      exact walkLoop_all_full size wo cb st rest
        (fun x hx => hrange x (List.mem_cons_of_mem s hx))
        (fun x hx => hfull x (List.mem_cons_of_mem s hx))

theorem walkLoop_first_empty {A : Type} (size : Nat) (wo : Nat → Loc × A) (cb : Triple Nat)
    (st : RunState A) : ∀ (l1 : List Nat) (s : Nat) (l2 : List Nat),
    (∀ x ∈ l1 ++ s :: l2, (wo x).1.1 < size ∧ (wo x).1.2 < size) →
    (∀ x ∈ l1, get2d st.grid (wo x).1.1 (wo x).1.2 none ≠ none) →
    get2d st.grid (wo s).1.1 (wo s).1.2 none = none →
    (wo s).1 ∈ st.openL →
    walkLoop size wo cb st (l1 ++ s :: l2) =
      Except.ok (some (walkPlace cb (wo s).1 (wo s).2 st))
  | [], s, l2, hrange, _, hempty, hmem => by
    have hr := hrange s (List.mem_cons_self s l2)
    rw [List.nil_append]
    unfold walkLoop
    rw [if_pos hr, hempty]
    simp only [hmem, if_pos]
  | x :: l1', s, l2, hrange, hfull, hempty, hmem => by
    have hr := hrange x (List.mem_cons_self x _)
    have hf := hfull x (List.mem_cons_self x l1')
    rw [List.cons_append]
    unfold walkLoop
    rw [if_pos hr]
    cases hcell : get2d st.grid (wo x).1.1 (wo x).1.2 none with
    | none => exact absurd hcell hf
    | some v =>
      exact walkLoop_first_empty size wo cb st l1' s l2
        (fun y hy => hrange y (List.mem_cons_of_mem x hy))
        (fun y hy => hfull y (List.mem_cons_of_mem x hy)) hempty hmem

/-- C7 (amended: the walk loop `for step in 1..cycle_cap*size` executes at
most `cycleCap * size - 1` steps, not `cycleCap * size`): a Grow-phase color
with a successful nearest-placed lookup (a) has a step budget of exactly
`cycleCap * size - 1` candidate steps; (b) is placed at the first step whose
wrapped position is an empty cell, recording the heading at that step; (c) exactly
when no step within the budget finds an empty cell, it is seed-style placed:
a random open location drawn by `remove_random` with a freshly drawn heading. -/
theorem c7_walk_budget_and_fallback {A : Type} (size : Nat) (rngN : Nat → Nat)
    (rngA : Nat → A) (offsets : List (Triple Int)) (cycle_cap : Nat)
    (wo : Nat → Loc × A) (cb : Triple Nat) (st : RunState A) (msl : Loc)
    (hms : mostSimilar offsets st.cbl cb = some msl)
    (hrange : ∀ s ∈ walkSteps cycle_cap size, (wo s).1.1 < size ∧ (wo s).1.2 < size) :
    (walkSteps cycle_cap size).length = cycle_cap * size - 1 ∧
    (∀ l1 s l2, walkSteps cycle_cap size = l1 ++ s :: l2 →
      (∀ x ∈ l1, get2d st.grid (wo x).1.1 (wo x).1.2 none ≠ none) →
      get2d st.grid (wo s).1.1 (wo s).1.2 none = none →
      (wo s).1 ∈ st.openL →
      growColor size rngN rngA offsets cycle_cap wo cb st =
        Except.ok (walkPlace cb (wo s).1 (wo s).2 st)) ∧
    ((∀ s ∈ walkSteps cycle_cap size, get2d st.grid (wo s).1.1 (wo s).1.2 none ≠ none) →
      growColor size rngN rngA offsets cycle_cap wo cb st =
        seedStep rngN rngA "over draw later" cb st) := by
  refine ⟨by simp [walkSteps], ?_, ?_⟩
  · intro l1 s l2 hsplit hfull hempty hmem
    unfold growColor
    rw [hms, hsplit,
      walkLoop_first_empty size wo cb st l1 s l2 (by rw [← hsplit]; exact hrange) hfull
        hempty hmem]
  · intro hfull
    unfold growColor
    rw [hms, walkLoop_all_full size wo cb st (walkSteps cycle_cap size) hrange hfull]

/-- C7 witness: with `cycleCap = 1` and `size = 1` the step list is empty and
the color falls back to seed-style placement. -/
theorem c7_witness :
    (walkSteps 1 1).length = 1 * 1 - 1 ∧
    (∀ l1 s l2, walkSteps 1 1 = l1 ++ s :: l2 →
      (∀ x ∈ l1, get2d [[some (⟨0, 0, 0⟩ : Triple Nat)]]
        ((fun _ => (((0, 0) : Loc), (0 : Nat))) s).1.1
        ((fun _ => (((0, 0) : Loc), (0 : Nat))) s).1.2 none ≠ none) →
      get2d [[some (⟨0, 0, 0⟩ : Triple Nat)]]
        ((fun _ => (((0, 0) : Loc), (0 : Nat))) s).1.1
        ((fun _ => (((0, 0) : Loc), (0 : Nat))) s).1.2 none = none →
      ((fun _ => (((0, 0) : Loc), (0 : Nat))) s).1 ∈
        (⟨[[some ⟨0, 0, 0⟩]], [[0]], [(⟨0, 0, 0⟩, (0, 0))], [], 0⟩ : RunState Nat).openL →
      growColor 1 (fun _ => 0) (fun _ => 0) [⟨0, 0, 0⟩] 1 (fun _ => ((0, 0), 0)) ⟨0, 0, 0⟩
        ⟨[[some ⟨0, 0, 0⟩]], [[0]], [(⟨0, 0, 0⟩, (0, 0))], [], 0⟩ =
        Except.ok (walkPlace ⟨0, 0, 0⟩ ((fun _ => (((0, 0) : Loc), (0 : Nat))) s).1
          ((fun _ => (((0, 0) : Loc), (0 : Nat))) s).2
          ⟨[[some ⟨0, 0, 0⟩]], [[0]], [(⟨0, 0, 0⟩, (0, 0))], [], 0⟩)) ∧
    ((∀ s ∈ walkSteps 1 1, get2d [[some (⟨0, 0, 0⟩ : Triple Nat)]]
        ((fun _ => (((0, 0) : Loc), (0 : Nat))) s).1.1
        ((fun _ => (((0, 0) : Loc), (0 : Nat))) s).1.2 none ≠ none) →
      growColor 1 (fun _ => 0) (fun _ => 0) [⟨0, 0, 0⟩] 1 (fun _ => ((0, 0), 0)) ⟨0, 0, 0⟩
        ⟨[[some ⟨0, 0, 0⟩]], [[0]], [(⟨0, 0, 0⟩, (0, 0))], [], 0⟩ =
        seedStep (fun _ => 0) (fun _ => 0) "over draw later" ⟨0, 0, 0⟩
          ⟨[[some ⟨0, 0, 0⟩]], [[0]], [(⟨0, 0, 0⟩, (0, 0))], [], 0⟩) :=
  c7_walk_budget_and_fallback 1 (fun _ => 0) (fun _ => 0) [⟨0, 0, 0⟩] 1
    (fun _ => ((0, 0), 0)) ⟨0, 0, 0⟩ ⟨[[some ⟨0, 0, 0⟩]], [[0]], [(⟨0, 0, 0⟩, (0, 0))], [], 0⟩
    (0, 0) (by decide) (by intro s hs; simp [walkSteps] at hs)

/-- C7 counterexample: the claim says the walk executes up to
`cycleCap * size` steps, but with `cycleCap = 1` and `size = 8` the loop
`for step in 1..cycle_cap*size` has only 7 candidate steps, not 8. -/
theorem c7_counterexample : ¬ ((walkSteps 1 8).length = 1 * 8) := by decide

/-! Claim C4: configuration validation. -/

theorem probeOffset_nil (cb : Triple Nat) (o : Triple Int) :
    probeOffset [] cb o = none := by
  unfold probeOffset
  split
  · rfl
  · rfl

theorem mostSimilar_nil (offsets : List (Triple Int)) (cb : Triple Nat) :
    mostSimilar offsets [] cb = none :=
  (firstHit_eq_none_iff (probeOffset [] cb) offsets).mpr
    (fun o _ => probeOffset_nil cb o)

/-- With `num_seeds = 0` the very first color of the (nonempty) processing
order takes the Grow branch against an empty color-to-location index, and the
run dies with the `Seeded` panic from inside the placement loop. -/
theorem runPlacement_numSeeds_zero {A : Type} (a0 : A) (rngN : Nat → Nat) (rngA : Nat → A)
    (wo : Nat → Nat → Loc × A) (scale cycle_cap : Nat) (hs : 1 ≤ scale) :
    runPlacement a0 rngN rngA wo scale 0 cycle_cap = Except.error "Seeded" := by
  have hlen : (make_bases_offsets scale rngN 0).1.length = scale ^ 6 := by
    rw [(make_bases_offsets_perm scale rngN 0).length_eq, basesPre_length]
  have hpos : 0 < (make_bases_offsets scale rngN 0).1.length := by
    rw [hlen]
    exact Nat.pos_pow_of_pos 6 hs
  unfold runPlacement
  cases hb : (make_bases_offsets scale rngN 0).1 with
  | nil => rw [hb] at hpos; simp at hpos
  | cons b rest =>
    have henum : (b :: rest).enum = (0, b) :: (rest.enumFrom 1) := rfl
    show placeAll (scale ^ 3) 0 rngN rngA (make_bases_offsets scale rngN 0).2.1 cycle_cap wo
        (make_bases_offsets scale rngN 0).1.enum
        (initState A a0 (scale ^ 3) (make_bases_offsets scale rngN 0).2.2) =
      Except.error "Seeded"
    rw [hb, henum]
    unfold placeAll placeColor
    have h00 : ¬ (((0 : Nat), b).1 < 0) := by simp
    rw [if_neg h00]
    unfold growColor
    rw [show (initState A a0 (scale ^ 3) (make_bases_offsets scale rngN 0).2.2).cbl = []
        from rfl,
      mostSimilar_nil]

/-- C4 (amended: the program performs no upfront configuration validation at
all; in particular `numSeeds = 0` is not rejected before work begins — the
full run state is built, the placement loop starts, and the run aborts from
inside the first Grow placement with the `Seeded` panic). -/
theorem c4_no_config_validation {A : Type} (a0 : A) (rngN : Nat → Nat) (rngA : Nat → A)
    (wo : Nat → Nat → Loc × A) (scale cycle_cap : Nat) (hs : 1 ≤ scale) :
    runPlacement a0 rngN rngA wo scale 0 cycle_cap = Except.error "Seeded" :=
  runPlacement_numSeeds_zero a0 rngN rngA wo scale cycle_cap hs

/-- C4 witness: the concrete `scale = 2`, `numSeeds = 0` run aborts with the
`Seeded` placement panic. -/
theorem c4_witness :
    runPlacement (0 : Nat) (fun _ => 0) (fun _ => 0) (fun _ _ => ((0, 0), 0)) 2 0 1 =
      Except.error "Seeded" :=
  c4_no_config_validation 0 (fun _ => 0) (fun _ => 0) (fun _ _ => ((0, 0), 0)) 2 1
    (by decide)

/-- C4 counterexample: at the invalid configuration `numSeeds = 0`
(`scale = 2`) the program does not report a configuration error before any
placement work: it fails with the `Seeded` panic raised from inside the
placement loop (the nearest-placed lookup of the first Grow color), which is
an invariant panic, not a configuration rejection. -/
theorem c4_counterexample :
    runPlacement (0 : Nat) (fun _ => 0) (fun _ => 0) (fun _ _ => ((0, 0), 0)) 2 0 1 =
      Except.error "Seeded" ∧ "Seeded" ≠ "invalid configuration" :=
  ⟨runPlacement_numSeeds_zero 0 (fun _ => 0) (fun _ => 0) (fun _ _ => ((0, 0), 0)) 2 1
    (by decide), by decide⟩

/-! Claim C10: determinism. -/

/-- C10: `make_image` is deterministic in its parameters: two invocations
with identical `scale`, `numSeeds`, `initialTurnRate`, `alpha`, `cycleCap`
and `seed` (under the same pseudo-random generator family and float
semantics, which are pure functions) produce identical images. -/
theorem c10_deterministic {A : Type} (a0 : A) (rngNF : Nat → Nat → Nat)
    (rngAF : Nat → Nat → A) (walkF : A → A → Nat → Nat → Nat → Loc × A)
    (scale1 scale2 numSeeds1 numSeeds2 : Nat) (itr1 itr2 alpha1 alpha2 : A)
    (cc1 cc2 seed1 seed2 : Nat)
    (h1 : scale1 = scale2) (h2 : numSeeds1 = numSeeds2) (h3 : itr1 = itr2)
    (h4 : alpha1 = alpha2) (h5 : cc1 = cc2) (h6 : seed1 = seed2) :
    makeImageSeeded a0 rngNF rngAF walkF scale1 numSeeds1 itr1 alpha1 cc1 seed1 =
      makeImageSeeded a0 rngNF rngAF walkF scale2 numSeeds2 itr2 alpha2 cc2 seed2 := by
  rw [h1, h2, h3, h4, h5, h6]

/-- C10 witness: two identical concrete invocations agree. -/
theorem c10_witness :
    makeImageSeeded (0 : Nat) (fun _ _ => 0) (fun _ _ => 0) (fun _ _ _ _ _ => ((0, 0), 0))
      2 1 0 0 1 5 =
    makeImageSeeded (0 : Nat) (fun _ _ => 0) (fun _ _ => 0) (fun _ _ _ _ _ => ((0, 0), 0))
      2 1 0 0 1 5 :=
  c10_deterministic 0 (fun _ _ => 0) (fun _ _ => 0) (fun _ _ _ _ _ => ((0, 0), 0))
    2 2 1 1 0 0 0 0 1 1 5 5 rfl rfl rfl rfl rfl rfl

/-! Claims C1 and C8: the placement-loop invariant. -/

/-- A color storable in the run state: componentwise below both `colorSize`
and 256 (every generated color base satisfies this for every scale). -/
def inBase (cs : Nat) (c : Triple Nat) : Prop :=
  c.r < min cs 256 ∧ c.g < min cs 256 ∧ c.b < min cs 256

/-- The multiset of colors placed on the grid, as a list. -/
def gridValues {α : Type} (g : List (List (Option α))) : List α :=
  g.flatMap (fun row => row.filterMap id)

theorem lget_set_self {α : Type} : ∀ (l : List α) (i : Nat) (v : α), i < l.length →
    (l.set i v).get? i = some v
  | [], i, _, h => absurd h (by simp)
  | a :: t, 0, v, _ => rfl
  | a :: t, i + 1, v, h => lget_set_self t i v (Nat.lt_of_succ_lt_succ h)

theorem getD_set_self {α : Type} (l : List α) (i : Nat) (v d : α) (h : i < l.length) :
    (l.set i v).getD i d = v := by
  rw [List.getD_eq_getD_get?, lget_set_self l i v h]
  rfl

theorem getD_set_ne {α : Type} (l : List α) (i j : Nat) (v d : α) (h : i ≠ j) :
    (l.set i v).getD j d = l.getD j d := by
  rw [List.getD_eq_getD_get?, lget_set_ne l i j v h, ← List.getD_eq_getD_get?]

theorem getD_mem {α : Type} : ∀ (l : List α) (i : Nat) (d : α), i < l.length →
    l.getD i d ∈ l
  | [], i, _, h => absurd h (by simp)
  | a :: t, 0, d, _ => List.mem_cons_self a t
  | a :: t, i + 1, d, h =>
    List.mem_cons_of_mem a (getD_mem t i d (Nat.lt_of_succ_lt_succ h))

theorem length_set2d {α : Type} (g : List (List α)) (i j : Nat) (v : α) :
    (set2d g i j v).length = g.length := by
  unfold set2d
  exact List.length_set _ _ _

theorem rows_set2d {α : Type} (g : List (List α)) (i j : Nat) (v : α) (size : Nat)
    (hi : i < g.length) (hrows : ∀ r ∈ g, r.length = size) :
    ∀ r ∈ set2d g i j v, r.length = size := by
  intro r hr
  rcases List.mem_or_eq_of_mem_set hr with hmem | heq
  · exact hrows r hmem
  · rw [heq, List.length_set]
    exact hrows _ (getD_mem g i [] hi)

theorem get2d_set2d_self {α : Type} (g : List (List α)) (i j : Nat) (v d : α)
    (size : Nat) (hg : g.length = size) (hrows : ∀ r ∈ g, r.length = size)
    (hi : i < size) (hj : j < size) :
    get2d (set2d g i j v) i j d = v := by
  unfold get2d set2d
  rw [getD_set_self g i _ [] (by omega)]
  exact getD_set_self _ j v d (by rw [hrows _ (getD_mem g i [] (by omega))]; omega)

theorem set_oob {α : Type} : ∀ (l : List α) (i : Nat) (v : α), l.length ≤ i → l.set i v = l
  | [], _, _, _ => rfl
  | a :: t, 0, v, h => absurd h (by simp)
  | a :: t, i + 1, v, h => congrArg (List.cons a) (set_oob t i v (by simpa using h))

theorem get2d_set2d_ne {α : Type} (g : List (List α)) (i j x y : Nat) (v d : α)
    (hne : (x, y) ≠ (i, j)) :
    get2d (set2d g i j v) x y d = get2d g x y d := by
  unfold get2d set2d
  by_cases hix : i = x
  · subst hix
    have hjy : j ≠ y := fun h => hne (by rw [h])
    by_cases hlen : i < g.length
    · rw [getD_set_self g i _ [] hlen, getD_set_ne (g.getD i []) j y v d hjy]
    · rw [set_oob g i _ (le_of_not_lt hlen)]
  · rw [getD_set_ne g i x _ [] hix]

theorem filterMap_set_some {α : Type} : ∀ (row : List (Option α)) (j : Nat) (v : α),
    j < row.length → row.getD j none = none →
    List.Perm ((row.set j (some v)).filterMap id) (v :: row.filterMap id)
  | [], j, _, h, _ => absurd h (by simp)
  | c :: t, 0, v, _, hempty => by
    have hc : c = none := hempty
    subst hc
    exact List.Perm.refl _
  | c :: t, j + 1, v, h, hempty => by
    have hlt : j < t.length := Nat.lt_of_succ_lt_succ h
    have ih := filterMap_set_some t j v hlt hempty
    cases c with
    | none =>
      exact ih
    | some a =>
      show List.Perm (a :: (t.set j (some v)).filterMap id) (v :: a :: t.filterMap id)
      exact (ih.cons a).trans (List.Perm.swap v a _)

theorem gridValues_set {α : Type} : ∀ (g : List (List (Option α))) (i j : Nat) (v : α),
    i < g.length → j < (g.getD i []).length → get2d g i j none = none →
    List.Perm (gridValues (set2d g i j (some v))) (v :: gridValues g)
  | [], i, _, _, hi, _, _ => absurd hi (by simp)
  | row :: g', 0, j, v, _, hj, hempty => by
    show List.Perm ((row.set j (some v)).filterMap id ++ gridValues g')
      (v :: (row.filterMap id ++ gridValues g'))
    exact (filterMap_set_some row j v hj hempty).append_right _
  | row :: g', i' + 1, j, v, hi, hj, hempty => by
    have ih := gridValues_set g' i' j v (by simpa using hi) hj hempty
    show List.Perm (row.filterMap id ++ gridValues (set2d g' i' j (some v)))
      (v :: (row.filterMap id ++ gridValues g'))
    exact (ih.append_left _).trans List.perm_middle

theorem flatMap_length_const {α β : Type} (f : α → List β) (n : Nat) :
    ∀ l : List α, (∀ a ∈ l, (f a).length = n) → (l.flatMap f).length = l.length * n
  | [], _ => by simp
  | a :: t, h => by
    show (f a ++ t.flatMap f).length = (a :: t).length * n
    rw [List.length_append, h a (List.mem_cons_self a t),
      flatMap_length_const f n t (fun x hx => h x (List.mem_cons_of_mem a hx))]
    simp [Nat.succ_mul, Nat.add_comm]

/-- The initial open-location list of line 107-109. -/
def initOpen (size : Nat) : List Loc :=
  (List.range size).flatMap (fun i => (List.range size).map (fun j => (i, j)))

theorem initState_openL {A : Type} (a0 : A) (size t : Nat) :
    (initState A a0 size t).openL = initOpen size := rfl

theorem initOpen_length (size : Nat) : (initOpen size).length = size * size := by
  unfold initOpen
  rw [flatMap_length_const _ size _ (fun a _ => by simp), List.length_range]

theorem initOpen_mem (size x y : Nat) : (x, y) ∈ initOpen size ↔ x < size ∧ y < size := by
  unfold initOpen
  simp only [List.mem_flatMap, List.mem_map, List.mem_range]
  constructor
  · rintro ⟨a, ha, b, hb, heq⟩
    obtain ⟨h1, h2⟩ := Prod.ext_iff.mp heq
    subst h1; subst h2
    exact ⟨ha, hb⟩
  · rintro ⟨hx, hy⟩
    exact ⟨x, hx, y, hy, rfl⟩

theorem initOpen_nodup_general (size : Nat) :
    ∀ l : List Nat, l.Nodup →
      (l.flatMap (fun i => (List.range size).map (fun j => ((i, j) : Loc)))).Nodup
  | [], _ => by simp
  | a :: t, hnd => by
    show (((List.range size).map (fun j => ((a, j) : Loc))) ++
      t.flatMap (fun i => (List.range size).map (fun j => ((i, j) : Loc)))).Nodup
    rw [List.nodup_append]
    refine ⟨?_, initOpen_nodup_general size t (List.nodup_cons.mp hnd).2, ?_⟩
    · exact (List.nodup_range size).map (fun x y h => (Prod.ext_iff.mp h).2)
    · intro p hp1 hp2
      obtain ⟨j, _, hj⟩ := List.mem_map.mp hp1
      obtain ⟨i, hi, hmap⟩ := List.mem_flatMap.mp hp2
      obtain ⟨j', _, hj'⟩ := List.mem_map.mp hmap
      have ha : p.1 = a := by rw [← hj]
      have hia : p.1 = i := by rw [← hj']
      rw [ha] at hia
      rw [← hia] at hi
      exact (List.nodup_cons.mp hnd).1 hi

theorem initOpen_nodup (size : Nat) : (initOpen size).Nodup :=
  initOpen_nodup_general size (List.range size) (List.nodup_range size)

theorem getD_replicate {α : Type} : ∀ (n i : Nat) (a d : α), i < n →
    (List.replicate n a).getD i d = a
  | 0, i, _, _, h => absurd h (by simp)
  | n + 1, 0, _, _, _ => rfl
  | n + 1, i + 1, a, d, h => getD_replicate n i a d (Nat.lt_of_succ_lt_succ h)

theorem get2d_replicate {α : Type} (size i j : Nat) (hi : i < size) (hj : j < size) :
    get2d (List.replicate size (List.replicate size (none : Option α))) i j none = none := by
  unfold get2d
  rw [getD_replicate size i _ [] hi, getD_replicate size j _ none hj]

theorem filterMap_id_replicate_none {α : Type} :
    ∀ n : Nat, (List.replicate n (none : Option α)).filterMap id = []
  | 0 => rfl
  | n + 1 => filterMap_id_replicate_none n

theorem gridValues_replicate_none {α : Type} (m : Nat) :
    ∀ n : Nat, gridValues (List.replicate n (List.replicate m (none : Option α))) = []
  | 0 => rfl
  | n + 1 => by
    show (List.replicate m (none : Option α)).filterMap id ++
      gridValues (List.replicate n (List.replicate m (none : Option α))) = []
    rw [filterMap_id_replicate_none m, gridValues_replicate_none m n]
    rfl

theorem mem_eraseIdx_nodup {α : Type} : ∀ (l : List α) (k : Nat) (h : k < l.length),
    l.Nodup → ∀ q : α, q ∈ l.eraseIdx k ↔ q ∈ l ∧ q ≠ l.get ⟨k, h⟩
  | [], k, h, _, _ => absurd h (by simp)
  | a :: t, 0, _, hnd, q => by
    show q ∈ t ↔ q ∈ a :: t ∧ q ≠ a
    constructor
    · intro hq
      refine ⟨List.mem_cons_of_mem a hq, ?_⟩
      intro he; subst he
      exact (List.nodup_cons.mp hnd).1 hq
    · rintro ⟨hq, hne⟩
      rcases List.mem_cons.mp hq with he | ht
      · exact absurd he hne
      · exact ht
  | a :: t, k + 1, h, hnd, q => by
    show q ∈ a :: t.eraseIdx k ↔ q ∈ a :: t ∧ q ≠ t.get ⟨k, Nat.lt_of_succ_lt_succ h⟩
    have ih := mem_eraseIdx_nodup t k (Nat.lt_of_succ_lt_succ h) (List.nodup_cons.mp hnd).2 q
    constructor
    · intro hq
      rcases List.mem_cons.mp hq with he | ht
      · subst he
        refine ⟨List.mem_cons_self q t, ?_⟩
        intro he2
        have : q ∈ t := he2 ▸ List.get_mem t _ _
        exact (List.nodup_cons.mp hnd).1 this
      · obtain ⟨hmem, hne⟩ := ih.mp ht
        exact ⟨List.mem_cons_of_mem a hmem, hne⟩
    · rintro ⟨hq, hne⟩
      rcases List.mem_cons.mp hq with he | ht
      · subst he; exact List.mem_cons_self q _
      · exact List.mem_cons_of_mem a (ih.mpr ⟨ht, hne⟩)

theorem alLookup_isSome : ∀ (cbl : List (Triple Nat × Loc)) (k : Triple Nat),
    (∃ v, (k, v) ∈ cbl) → ∃ v, alLookup cbl k = some v
  | [], k, h => by
    obtain ⟨v, hv⟩ := h
    exact absurd hv (by simp)
  | (k', v') :: rest, k, h => by
    by_cases he : k' = k
    · exact ⟨v', by simp [alLookup, he]⟩
    · obtain ⟨v, hv⟩ := h
      rcases List.mem_cons.mp hv with heq | hmem
      · exact absurd (Prod.ext_iff.mp heq).1.symm he
      · obtain ⟨w, hw⟩ := alLookup_isSome rest k ⟨v, hmem⟩
        exact ⟨w, by simp [alLookup, he, hw]⟩

theorem colorBaseOfIndex_encode_general (cs a b c : Nat)
    (ha : a < cs) (hb : b < cs) (hc : c < cs)
    (ha2 : a < 256) (hb2 : b < 256) (hc2 : c < 256) :
    colorBaseOfIndex cs (a + cs * (b + cs * c)) = ⟨a, b, c⟩ := by
  have hcpos : 0 < cs := lt_of_le_of_lt (Nat.zero_le a) ha
  have hmod : (a + cs * (b + cs * c)) % cs = a := by
    rw [Nat.add_mul_mod_self_left, Nat.mod_eq_of_lt ha]
  have hdiv : (a + cs * (b + cs * c)) / cs = b + cs * c := by
    rw [Nat.add_mul_div_left _ _ hcpos, Nat.div_eq_of_lt ha, Nat.zero_add]
  have hdiv2 : (a + cs * (b + cs * c)) / cs ^ 2 = c := by
    rw [pow_two, ← Nat.div_div_eq_div_mul, hdiv, Nat.add_mul_div_left _ _ hcpos,
      Nat.div_eq_of_lt hb, Nat.zero_add]
  simp only [colorBaseOfIndex, u8]
  rw [hmod, hdiv2, hdiv, Nat.add_mul_mod_self_left, Nat.mod_eq_of_lt hb,
    Nat.mod_eq_of_lt ha2, Nat.mod_eq_of_lt hb2, Nat.mod_eq_of_lt hc2]

theorem basesPre_mem_inBase (scale : Nat) (tr : Triple Nat) (h : inBase (scale ^ 2) tr) :
    tr ∈ basesPre scale := by
  obtain ⟨hr, hg, hb⟩ := h
  have hr1 : tr.r < scale ^ 2 := lt_of_lt_of_le hr (min_le_left _ _)
  have hg1 : tr.g < scale ^ 2 := lt_of_lt_of_le hg (min_le_left _ _)
  have hb1 : tr.b < scale ^ 2 := lt_of_lt_of_le hb (min_le_left _ _)
  have hr2 : tr.r < 256 := lt_of_lt_of_le hr (min_le_right _ _)
  have hg2 : tr.g < 256 := lt_of_lt_of_le hg (min_le_right _ _)
  have hb2 : tr.b < 256 := lt_of_lt_of_le hb (min_le_right _ _)
  refine List.mem_map.mpr ⟨tr.r + scale ^ 2 * (tr.g + scale ^ 2 * tr.b), ?_, ?_⟩
  · rw [List.mem_range, pow_six_eq]
    exact encode_lt _ _ _ _ hr1 hg1 hb1
  · rw [colorBaseOfIndex_encode_general _ _ _ _ hr1 hg1 hb1 hr2 hg2 hb2]

theorem signVariants_cover (δ : Triple Nat) (x y z : Int)
    (hx : x = (δ.r : Int) ∨ x = -(δ.r : Int))
    (hy : y = (δ.g : Int) ∨ y = -(δ.g : Int))
    (hz : z = (δ.b : Int) ∨ z = -(δ.b : Int)) :
    (⟨x, y, z⟩ : Triple Int) ∈ signVariants (baseAsInt δ) := by
  unfold signVariants baseAsInt
  rcases hx with h1 | h1 <;> rcases hy with h2 | h2 <;> rcases hz with h3 | h3 <;>
    subst h1 <;> subst h2 <;> subst h3 <;> simp

/-- Componentwise absolute difference of two naturals. -/
def absDiff (p c : Nat) : Nat := if c ≤ p then p - c else c - p

theorem absDiff_lt (p c m : Nat) (hp : p < m) (hc : c < m) : absDiff p c < m := by
  unfold absDiff
  split <;> omega

theorem diff_sign (p c : Nat) :
    (p : Int) - c = (absDiff p c : Int) ∨ (p : Int) - c = -(absDiff p c : Int) := by
  by_cases h : c ≤ p
  · left; unfold absDiff; rw [if_pos h]; omega
  · right; unfold absDiff; rw [if_neg h]; omega

/-- For any two storable colors `c` and `p`, the difference `p - c` occurs in
the sign-variant offset list (the abs-difference triple is itself a generated
color base, and the matching sign combination is among its eight variants). -/
theorem offset_exists (scale : Nat) (c p : Triple Nat) (hc : inBase (scale ^ 2) c)
    (hp : inBase (scale ^ 2) p) :
    ∃ o ∈ ((basesPre scale).map baseAsInt).flatMap signVariants,
      (c.r : Int) + o.r = p.r ∧ (c.g : Int) + o.g = p.g ∧ (c.b : Int) + o.b = p.b := by
  refine ⟨⟨(p.r : Int) - c.r, (p.g : Int) - c.g, (p.b : Int) - c.b⟩, ?_,
    by ring, by ring, by ring⟩
  apply List.mem_flatMap.mpr
  refine ⟨baseAsInt ⟨absDiff p.r c.r, absDiff p.g c.g, absDiff p.b c.b⟩,
    List.mem_map_of_mem baseAsInt (basesPre_mem_inBase scale _
      ⟨absDiff_lt _ _ _ hp.1 hc.1, absDiff_lt _ _ _ hp.2.1 hc.2.1,
        absDiff_lt _ _ _ hp.2.2 hc.2.2⟩), ?_⟩
  exact signVariants_cover ⟨absDiff p.r c.r, absDiff p.g c.g, absDiff p.b c.b⟩ _ _ _
    (diff_sign p.r c.r) (diff_sign p.g c.g) (diff_sign p.b c.b)

/-- Once any color is placed, the nearest-placed lookup over the generated
offset list always finds a hit, for every scale: the `Seeded` expect cannot
fire after seeding. -/
theorem mostSimilar_covers (scale : Nat) (rng : Nat → Nat) (t0 : Nat)
    (cbl : List (Triple Nat × Loc)) (cb : Triple Nat)
    (hcb : inBase (scale ^ 2) cb) (hne : cbl ≠ [])
    (hkeys : ∀ kv ∈ cbl, inBase (scale ^ 2) kv.1) :
    mostSimilar (make_bases_offsets scale rng t0).2.1 cbl cb ≠ none := by
  cases cbl with
  | nil => exact absurd rfl hne
  | cons head rest =>
    obtain ⟨p, loc0⟩ := head
    have hp : inBase (scale ^ 2) p := hkeys (p, loc0) (List.mem_cons_self _ _)
    obtain ⟨o, ho, h1, h2, h3⟩ := offset_exists scale cb p hcb hp
    have hsorted : o ∈ (make_bases_offsets scale rng t0).2.1 := by
      rw [make_bases_offsets_snd]
      exact ((List.perm_insertionSort offsetLe _).mem_iff).mpr ho
    have hb1 : p.r < 256 := lt_of_lt_of_le hp.1 (min_le_right _ _)
    have hb2 : p.g < 256 := lt_of_lt_of_le hp.2.1 (min_le_right _ _)
    have hb3 : p.b < 256 := lt_of_lt_of_le hp.2.2 (min_le_right _ _)
    have hprobe : probeOffset ((p, loc0) :: rest) cb o ≠ none := by
      unfold probeOffset
      have hcond : ¬ ((cb.r : Int) + o.r < 0 ∨ (cb.r : Int) + o.r > 255 ∨
          (cb.g : Int) + o.g < 0 ∨ (cb.g : Int) + o.g > 255 ∨
          (cb.b : Int) + o.b < 0 ∨ (cb.b : Int) + o.b > 255) := by
        intro hcontra
        rw [h1, h2, h3] at hcontra
        rcases hcontra with h | h | h | h | h | h <;> omega
      rw [if_neg hcond]
      have hkey : (⟨i16ToU8 ((cb.r : Int) + o.r), i16ToU8 ((cb.g : Int) + o.g),
          i16ToU8 ((cb.b : Int) + o.b)⟩ : Triple Nat) = p := by
        rw [h1, h2, h3]
        unfold i16ToU8
        obtain ⟨pr, pg, pb⟩ := p
        simp only at hb1 hb2 hb3 ⊢
        have e1 : ((pr : Int) % 256).toNat = pr := by omega
        have e2 : ((pg : Int) % 256).toNat = pg := by omega
        have e3 : ((pb : Int) % 256).toNat = pb := by omega
        rw [e1, e2, e3]
      rw [hkey]
      obtain ⟨v, hv⟩ := alLookup_isSome ((p, loc0) :: rest) p
        ⟨loc0, List.mem_cons_self _ _⟩
      rw [hv]
      simp
    intro hnone
    exact hprobe ((firstHit_eq_none_iff _ _).mp hnone o hsorted)

/-- The placement-loop invariant, after the colors in `processed` have been
placed: the grid is a well-formed `size x size` matrix; the open-location
list is duplicate-free, contains only valid locations, and is exactly the set
of empty cells; the multiset of placed cell values is exactly `processed`;
sizes balance; and the color-to-location index holds storable keys and is
nonempty as soon as anything was processed. -/
structure LoopInv (size cs : Nat) {A : Type} (processed : List (Triple Nat))
    (st : RunState A) : Prop where
  glen : st.grid.length = size
  rlen : ∀ r ∈ st.grid, r.length = size
  onodup : st.openL.Nodup
  ovalid : ∀ q ∈ st.openL, q.1 < size ∧ q.2 < size
  oiff : ∀ x y : Nat, x < size → y < size →
    ((x, y) ∈ st.openL ↔ get2d st.grid x y none = none)
  vals : List.Perm (gridValues st.grid) processed
  balance : st.openL.length + processed.length = size * size
  ckeys : ∀ kv ∈ st.cbl, inBase cs kv.1
  cne : processed ≠ [] → st.cbl ≠ []

theorem inv_place {A : Type} (size cs : Nat) (processed : List (Triple Nat))
    (st : RunState A) (inv : LoopInv size cs processed st) (cb : Triple Nat)
    (hcb : inBase cs cb) (loc : Loc) (hv1 : loc.1 < size) (hv2 : loc.2 < size)
    (hempty : get2d st.grid loc.1 loc.2 none = none)
    (openL' : List Loc) (dirs' : List (List A)) (t' : Nat)
    (hlen' : openL'.length + 1 = st.openL.length)
    (hmem' : ∀ q : Loc, q ∈ openL' ↔ q ∈ st.openL ∧ q ≠ loc)
    (hnd' : openL'.Nodup) :
    LoopInv size cs (processed ++ [cb])
      ⟨set2d st.grid loc.1 loc.2 (some cb), dirs', (cb, loc) :: st.cbl, openL', t'⟩ := by
  have hgi : loc.1 < st.grid.length := by rw [inv.glen]; exact hv1
  have hgj : loc.2 < (st.grid.getD loc.1 []).length := by
    rw [inv.rlen _ (getD_mem st.grid loc.1 [] hgi)]
    exact hv2
  refine ⟨?_, ?_, hnd', ?_, ?_, ?_, ?_, ?_, ?_⟩
  · rw [length_set2d, inv.glen]
  · exact rows_set2d st.grid loc.1 loc.2 (some cb) size hgi inv.rlen
  · exact fun q hq => inv.ovalid q ((hmem' q).mp hq).1
  · intro x y hx hy
    by_cases hxy : (x, y) = loc
    · constructor
      · intro hmem
        exact absurd hxy ((hmem' (x, y)).mp hmem).2
      · intro hcell
        have hx1 : x = loc.1 := by rw [← hxy]
        have hy1 : y = loc.2 := by rw [← hxy]
        rw [hx1, hy1, get2d_set2d_self st.grid loc.1 loc.2 (some cb) none size inv.glen
          inv.rlen hv1 hv2] at hcell
        exact Option.noConfusion hcell
    · rw [get2d_set2d_ne st.grid loc.1 loc.2 x y (some cb) none hxy]
      rw [hmem' (x, y)]
      constructor
      · intro h
        exact (inv.oiff x y hx hy).mp h.1
      · intro h
        exact ⟨(inv.oiff x y hx hy).mpr h, hxy⟩
  · have hstep := gridValues_set st.grid loc.1 loc.2 cb hgi hgj hempty
    exact (hstep.trans (inv.vals.cons cb)).trans
      (List.perm_append_singleton cb processed).symm
  · have hb := inv.balance
    rw [List.length_append]
    simp only [List.length_singleton]
    omega
  · intro kv hkv
    rcases List.mem_cons.mp hkv with heq | hmem
    · rw [heq]
      exact hcb
    · exact inv.ckeys kv hmem
  · intro _
    exact List.cons_ne_nil _ _

theorem seedStep_inv {A : Type} (size cs : Nat) (rngN : Nat → Nat) (rngA : Nat → A)
    (err : String) (processed : List (Triple Nat)) (st : RunState A)
    (inv : LoopInv size cs processed st) (cb : Triple Nat) (hcb : inBase cs cb)
    (hroom : processed.length < size * size) :
    ∃ st', seedStep rngN rngA err cb st = Except.ok st' ∧
      LoopInv size cs (processed ++ [cb]) st' := by
  have hopos : 0 < st.openL.length := by
    have := inv.balance
    omega
  have hrr := remove_random_eq st.openL (rngN st.t) hopos
  have hidx : rngN st.t % st.openL.length < st.openL.length := Nat.mod_lt _ hopos
  have hlocmem : st.openL.get ⟨rngN st.t % st.openL.length, hidx⟩ ∈ st.openL :=
    List.get_mem _ _ _
  have hv := inv.ovalid _ hlocmem
  have hempty : get2d st.grid (st.openL.get ⟨rngN st.t % st.openL.length, hidx⟩).1
      (st.openL.get ⟨rngN st.t % st.openL.length, hidx⟩).2 none = none := by
    have h := (inv.oiff _ _ hv.1 hv.2).mp
    rw [Prod.mk.eta] at h
    exact h hlocmem
  refine ⟨⟨set2d st.grid (st.openL.get ⟨rngN st.t % st.openL.length, hidx⟩).1
      (st.openL.get ⟨rngN st.t % st.openL.length, hidx⟩).2 (some cb),
    set2d st.dirs (st.openL.get ⟨rngN st.t % st.openL.length, hidx⟩).1
      (st.openL.get ⟨rngN st.t % st.openL.length, hidx⟩).2 (rngA (st.t + 1)),
    (cb, st.openL.get ⟨rngN st.t % st.openL.length, hidx⟩) :: st.cbl,
    st.openL.eraseIdx (rngN st.t % st.openL.length), st.t + 2⟩, ?_, ?_⟩
  · unfold seedStep
    rw [hrr]
  · exact inv_place size cs processed st inv cb hcb _ hv.1 hv.2 hempty
      (st.openL.eraseIdx (rngN st.t % st.openL.length)) _ _
      (by rw [length_eraseIdx_lt _ _ hidx]; omega)
      (fun q => by rw [mem_eraseIdx_nodup st.openL _ hidx inv.onodup q])
      (inv.onodup.sublist (List.eraseIdx_sublist _ _))

theorem walkLoop_inv {A : Type} (size cs : Nat) (processed : List (Triple Nat))
    (st : RunState A) (inv : LoopInv size cs processed st) (cb : Triple Nat)
    (hcb : inBase cs cb) (wo1 : Nat → Loc × A)
    (hwo : ∀ s, (wo1 s).1.1 < size ∧ (wo1 s).1.2 < size) :
    ∀ steps : List Nat,
      walkLoop size wo1 cb st steps = Except.ok none ∨
      ∃ st', walkLoop size wo1 cb st steps = Except.ok (some st') ∧
        LoopInv size cs (processed ++ [cb]) st'
  | [] => Or.inl rfl
  | s :: rest => by
    unfold walkLoop
    rw [if_pos (hwo s)]
    cases hcell : get2d st.grid (wo1 s).1.1 (wo1 s).1.2 none with
    | some v => exact walkLoop_inv size cs processed st inv cb hcb wo1 hwo rest
    | none =>
      have hmem : (wo1 s).1 ∈ st.openL := by
        have h := (inv.oiff (wo1 s).1.1 (wo1 s).1.2 (hwo s).1 (hwo s).2).mpr hcell
        rwa [Prod.mk.eta] at h
      rw [if_pos hmem]
      right
      refine ⟨_, rfl, ?_⟩
      exact inv_place size cs processed st inv cb hcb (wo1 s).1 (hwo s).1 (hwo s).2 hcell
        (st.openL.erase (wo1 s).1) _ _
        (by rw [List.length_erase_of_mem hmem]
            have : 0 < st.openL.length := List.length_pos.mpr (List.ne_nil_of_mem hmem)
            omega)
        (fun q => by
          rw [List.Nodup.mem_erase_iff inv.onodup]
          exact and_comm)
        (inv.onodup.sublist (List.erase_sublist _ _))

theorem growColor_inv {A : Type} (size cs : Nat) (rngN : Nat → Nat) (rngA : Nat → A)
    (offsets : List (Triple Int)) (cycle_cap : Nat) (wo1 : Nat → Loc × A)
    (processed : List (Triple Nat)) (st : RunState A)
    (inv : LoopInv size cs processed st) (cb : Triple Nat) (hcb : inBase cs cb)
    (hroom : processed.length < size * size)
    (hwo : ∀ s, (wo1 s).1.1 < size ∧ (wo1 s).1.2 < size)
    (hms : mostSimilar offsets st.cbl cb ≠ none) :
    ∃ st', growColor size rngN rngA offsets cycle_cap wo1 cb st = Except.ok st' ∧
      LoopInv size cs (processed ++ [cb]) st' := by
  cases hmsl : mostSimilar offsets st.cbl cb with
  | none => exact absurd hmsl hms
  | some msl =>
    unfold growColor
    rw [hmsl]
    rcases walkLoop_inv size cs processed st inv cb hcb wo1 hwo
        (walkSteps cycle_cap size) with hnone | ⟨st', hok, hinv⟩
    · rw [hnone]
      exact seedStep_inv size cs rngN rngA _ processed st inv cb hcb hroom
    · rw [hok]
      exact ⟨st', rfl, hinv⟩

theorem initial_inv {A : Type} (a0 : A) (size cs t0 : Nat) :
    LoopInv size cs [] (initState A a0 size t0) := by
  refine ⟨?_, ?_, ?_, ?_, ?_, ?_, ?_, ?_, ?_⟩
  · simp [initState]
  · intro r hr
    rw [List.eq_of_mem_replicate hr]
    simp
  · exact initOpen_nodup size
  · intro q hq
    have h := (initOpen_mem size q.1 q.2).mp (by rwa [Prod.mk.eta])
    exact h
  · intro x y hx hy
    constructor
    · intro _
      exact get2d_replicate size x y hx hy
    · intro _
      exact (initOpen_mem size x y).mpr ⟨hx, hy⟩
  · show List.Perm (gridValues (List.replicate size (List.replicate size none))) []
    rw [gridValues_replicate_none]
  · show (initOpen size).length + ([] : List (Triple Nat)).length = size * size
    rw [initOpen_length]
    simp
  · intro kv hkv
    exact absurd hkv (by simp [initState])
  · intro h
    exact absurd rfl h

theorem placeAll_inv {A : Type} (size cs num_seeds : Nat) (rngN : Nat → Nat)
    (rngA : Nat → A) (offsets : List (Triple Int)) (cycle_cap : Nat)
    (wo : Nat → Nat → Loc × A) (hns : 1 ≤ num_seeds)
    (hwo : ∀ i s, (wo i s).1.1 < size ∧ (wo i s).1.2 < size)
    (hcover : ∀ (cbl : List (Triple Nat × Loc)) (cb : Triple Nat), inBase cs cb →
      cbl ≠ [] → (∀ kv ∈ cbl, inBase cs kv.1) → mostSimilar offsets cbl cb ≠ none) :
    ∀ (L : List (Nat × Triple Nat)) (processed : List (Triple Nat)) (st : RunState A),
      LoopInv size cs processed st →
      (∀ icb ∈ L, inBase cs icb.2) →
      (∀ (n : Nat) (h : n < L.length), (L.get ⟨n, h⟩).1 = processed.length + n) →
      processed.length + L.length ≤ size * size →
      ∃ st', placeAll size num_seeds rngN rngA offsets cycle_cap wo L st = Except.ok st' ∧
        LoopInv size cs (processed ++ L.map Prod.snd) st'
  | [], processed, st, inv, _, _, _ => ⟨st, rfl, by simpa using inv⟩
  | (i, cb) :: rest, processed, st, inv, hin, hidx, htot => by
    have hi : i = processed.length := by
      have h := hidx 0 (by simp)
      simpa using h
    have hroom : processed.length < size * size := by
      have h := htot
      simp only [List.length_cons] at h
      omega
    have hcb : inBase cs cb := hin (i, cb) (List.mem_cons_self _ _)
    have hstep : ∃ st1, placeColor size num_seeds rngN rngA offsets cycle_cap wo (i, cb) st =
        Except.ok st1 ∧ LoopInv size cs (processed ++ [cb]) st1 := by
      unfold placeColor
      by_cases hseed : i < num_seeds
      · rw [if_pos hseed]
        exact seedStep_inv size cs rngN rngA _ processed st inv cb hcb hroom
      · rw [if_neg hseed]
        have hpne : processed ≠ [] := by
          have : 1 ≤ processed.length := by omega
          exact List.ne_nil_of_length_pos (by omega)
        exact growColor_inv size cs rngN rngA offsets cycle_cap (wo i) processed st inv cb
          hcb hroom (fun s => hwo i s)
          (hcover st.cbl cb hcb (inv.cne hpne) inv.ckeys)
    obtain ⟨st1, hok, inv1⟩ := hstep
    have hidx' : ∀ (n : Nat) (h : n < rest.length),
        (rest.get ⟨n, h⟩).1 = (processed ++ [cb]).length + n := by
      intro n h
      have h2 := hidx (n + 1) (by simpa using Nat.succ_lt_succ h)
      have h3 : (((i, cb) :: rest).get ⟨n + 1, by simpa using Nat.succ_lt_succ h⟩) =
          rest.get ⟨n, h⟩ := rfl
      rw [h3] at h2
      rw [h2, List.length_append]
      simp
      omega
    obtain ⟨st', hok', inv'⟩ := placeAll_inv size cs num_seeds rngN rngA offsets cycle_cap
      wo hns hwo hcover rest (processed ++ [cb]) st1 inv1
      (fun x hx => hin x (List.mem_cons_of_mem _ hx)) hidx'
      (by
        simp only [List.length_append, List.length_cons, List.length_nil,
          List.length_singleton] at htot ⊢
        omega)
    refine ⟨st', ?_, ?_⟩
    · unfold placeAll
      rw [hok]
      exact hok'
    · have he : (processed ++ [cb]) ++ rest.map Prod.snd =
          processed ++ ((i, cb) :: rest).map Prod.snd := by
        rw [List.append_assoc]
        rfl
      rwa [he] at inv'

theorem enumFrom_fst {α : Type} : ∀ (l : List α) (n k : Nat) (h : k < (List.enumFrom n l).length),
    ((List.enumFrom n l).get ⟨k, h⟩).1 = n + k
  | [], _, k, h => absurd h (by simp)
  | a :: t, n, 0, _ => by simp [List.enumFrom]
  | a :: t, n, k + 1, h => by
    show ((List.enumFrom (n + 1) t).get ⟨k, _⟩).1 = n + (k + 1)
    rw [enumFrom_fst t (n + 1) k _]
    omega

theorem take_get {α : Type} : ∀ (l : List α) (k n : Nat) (h : n < (l.take k).length)
    (h2 : n < l.length), (l.take k).get ⟨n, h⟩ = l.get ⟨n, h2⟩
  | [], _, _, _, h2 => absurd h2 (by simp)
  | a :: t, 0, n, h, _ => absurd h (by simp)
  | a :: t, k + 1, 0, _, _ => rfl
  | a :: t, k + 1, n + 1, h, h2 =>
    take_get t k n (by simpa using h) (by simpa using h2)

theorem bases_inBase (scale : Nat) (rng : Nat → Nat) (t0 : Nat) :
    ∀ cb ∈ (make_bases_offsets scale rng t0).1, inBase (scale ^ 2) cb := by
  intro cb hcb
  have hmem : cb ∈ basesPre scale :=
    (make_bases_offsets_perm scale rng t0).mem_iff.mp hcb
  obtain ⟨n, hn, he⟩ := List.mem_map.mp hmem
  rw [← he]
  have hlt : n < (scale ^ 2) ^ 3 := by
    rw [← pow_six_eq]
    exact List.mem_range.mp hn
  obtain ⟨h1, h2, h3⟩ := colorBaseOfIndex_lt (scale ^ 2) n hlt
  exact ⟨h1, h2, h3⟩

theorem size_square (scale : Nat) : scale ^ 3 * scale ^ 3 = scale ^ 6 := by
  rw [← pow_add]

/-- C1: for every valid parameter tuple and every in-range walk oracle, the
run completes without a panic; afterwards every cell of the `size x size`
grid is filled, the multiset of cell contents is exactly the generated
(shuffled) color-base list — each generated color occupies exactly one cell,
a bijection between the processed colors and the grid locations — and the
open-location set is exactly empty. -/
theorem c1_full_grid_bijection {A : Type} (a0 : A) (rngN : Nat → Nat) (rngA : Nat → A)
    (wo : Nat → Nat → Loc × A) (scale num_seeds cycle_cap : Nat)
    (h2 : 2 ≤ scale) (hns : 0 < num_seeds) (hns2 : num_seeds < scale ^ 6)
    (hcc : 0 < cycle_cap)
    (hwo : ∀ i s, (wo i s).1.1 < scale ^ 3 ∧ (wo i s).1.2 < scale ^ 3) :
    ∃ st, runPlacement a0 rngN rngA wo scale num_seeds cycle_cap = Except.ok st ∧
      (∀ x y, x < scale ^ 3 → y < scale ^ 3 → (get2d st.grid x y none).isSome) ∧
      List.Perm (gridValues st.grid) (make_bases_offsets scale rngN 0).1 ∧
      st.openL = [] := by
  have hlen : (make_bases_offsets scale rngN 0).1.length = scale ^ 6 := by
    rw [(make_bases_offsets_perm scale rngN 0).length_eq, basesPre_length]
  obtain ⟨st, hok, inv⟩ := placeAll_inv (scale ^ 3) (scale ^ 2) num_seeds rngN rngA
    (make_bases_offsets scale rngN 0).2.1 cycle_cap wo hns hwo
    (fun cbl cb hcb hne hkeys => mostSimilar_covers scale rngN 0 cbl cb hcb hne hkeys)
    (make_bases_offsets scale rngN 0).1.enum []
    (initState A a0 (scale ^ 3) (make_bases_offsets scale rngN 0).2.2)
    (initial_inv a0 (scale ^ 3) (scale ^ 2) _)
    (by
      intro icb hicb
      have hsnd : icb.2 ∈ (make_bases_offsets scale rngN 0).1 := by
        have h := List.mem_map_of_mem Prod.snd hicb
        rwa [List.enum_map_snd] at h
      exact bases_inBase scale rngN 0 icb.2 hsnd)
    (by
      intro n h
      have h0 := enumFrom_fst (make_bases_offsets scale rngN 0).1 0 n h
      simpa using h0)
    (by
      rw [List.enum_length, hlen, size_square]
      simp)
  have hproc : ([] : List (Triple Nat)) ++ (make_bases_offsets scale rngN 0).1.enum.map
      Prod.snd = (make_bases_offsets scale rngN 0).1 := by
    rw [List.nil_append, List.enum_map_snd]
  rw [hproc] at inv
  refine ⟨st, ?_, ?_, inv.vals, ?_⟩
  · unfold runPlacement
    exact hok
  · intro x y hx hy
    rw [Option.isSome_iff_ne_none]
    intro hcell
    have hmem := (inv.oiff x y hx hy).mpr hcell
    have hempty : st.openL = [] := by
      have hb := inv.balance
      rw [hlen, ← size_square scale] at hb
      have : st.openL.length = 0 := by omega
      exact List.length_eq_zero.mp this
    rw [hempty] at hmem
    exact absurd hmem (List.not_mem_nil _)
  · have hb := inv.balance
    rw [hlen, ← size_square scale] at hb
    have : st.openL.length = 0 := by omega
    exact List.length_eq_zero.mp this

/-- C1 witness: instantiation at `scale = 2`, `numSeeds = 1`, `cycleCap = 1`
with the constant in-range walk oracle. -/
theorem c1_witness :
    ∃ st, runPlacement (0 : Nat) (fun _ => 0) (fun _ => 0) (fun _ _ => ((0, 0), 0)) 2 1 1 =
      Except.ok st ∧
      (∀ x y, x < 2 ^ 3 → y < 2 ^ 3 → (get2d st.grid x y none).isSome) ∧
      List.Perm (gridValues st.grid) (make_bases_offsets 2 (fun _ => 0) 0).1 ∧
      st.openL = [] :=
  c1_full_grid_bijection 0 (fun _ => 0) (fun _ => 0) (fun _ _ => ((0, 0), 0)) 2 1 1
    (by decide) (by decide) (by decide) (by decide)
    (fun _ _ => (by decide : (0 : Nat) < 2 ^ 3 ∧ (0 : Nat) < 2 ^ 3))

/-- C8: at every iteration count `k` of the placement loop, the run so far
has not panicked (in particular the open-set removal assertion of the walk
placement never failed), the open-location set is exactly the set of empty
grid cells, it is duplicate-free, and its size is exactly `size^2 - k`: it
shrinks monotonically from `size^2` to 0, each placement removing exactly
one location. -/
theorem c8_open_set_exact {A : Type} (a0 : A) (rngN : Nat → Nat) (rngA : Nat → A)
    (wo : Nat → Nat → Loc × A) (scale num_seeds cycle_cap : Nat)
    (h2 : 2 ≤ scale) (hns : 0 < num_seeds) (hns2 : num_seeds < scale ^ 6)
    (hcc : 0 < cycle_cap)
    (hwo : ∀ i s, (wo i s).1.1 < scale ^ 3 ∧ (wo i s).1.2 < scale ^ 3) :
    ∀ k, k ≤ scale ^ 6 →
      ∃ stk, placeAll (scale ^ 3) num_seeds rngN rngA
          (make_bases_offsets scale rngN 0).2.1 cycle_cap wo
          ((make_bases_offsets scale rngN 0).1.enum.take k)
          (initState A a0 (scale ^ 3) (make_bases_offsets scale rngN 0).2.2) =
          Except.ok stk ∧
        (∀ x y, x < scale ^ 3 → y < scale ^ 3 →
          ((x, y) ∈ stk.openL ↔ get2d stk.grid x y none = none)) ∧
        stk.openL.length = scale ^ 3 * scale ^ 3 - k ∧ stk.openL.Nodup := by
  intro k hk
  have hlen : (make_bases_offsets scale rngN 0).1.length = scale ^ 6 := by
    rw [(make_bases_offsets_perm scale rngN 0).length_eq, basesPre_length]
  have htl : ((make_bases_offsets scale rngN 0).1.enum.take k).length = k := by
    rw [List.length_take, List.enum_length, hlen]
    omega
  obtain ⟨stk, hok, inv⟩ := placeAll_inv (scale ^ 3) (scale ^ 2) num_seeds rngN rngA
    (make_bases_offsets scale rngN 0).2.1 cycle_cap wo hns hwo
    (fun cbl cb hcb hne hkeys => mostSimilar_covers scale rngN 0 cbl cb hcb hne hkeys)
    ((make_bases_offsets scale rngN 0).1.enum.take k) []
    (initState A a0 (scale ^ 3) (make_bases_offsets scale rngN 0).2.2)
    (initial_inv a0 (scale ^ 3) (scale ^ 2) _)
    (by
      intro icb hicb
      have hmem : icb ∈ (make_bases_offsets scale rngN 0).1.enum :=
        (List.take_sublist k _).subset hicb
      have hsnd : icb.2 ∈ (make_bases_offsets scale rngN 0).1 := by
        have h := List.mem_map_of_mem Prod.snd hmem
        rwa [List.enum_map_snd] at h
      exact bases_inBase scale rngN 0 icb.2 hsnd)
    (by
      intro n h
      have hn2 : n < (make_bases_offsets scale rngN 0).1.enum.length := by
        rw [List.enum_length, hlen]
        rw [htl] at h
        omega
      rw [take_get _ k n h hn2]
      have h0 := enumFrom_fst (make_bases_offsets scale rngN 0).1 0 n hn2
      simpa using h0)
    (by
      rw [htl, size_square scale]
      simp only [List.length_nil, Nat.zero_add]
      exact hk)
  refine ⟨stk, hok, inv.oiff, ?_, inv.onodup⟩
  have hb := inv.balance
  rw [List.nil_append, List.length_map, htl] at hb
  omega

/-- C8 witness: instantiation at `scale = 2`, `numSeeds = 1`, `cycleCap = 1`,
prefix length `k = 3`. -/
theorem c8_witness :
    ∃ stk, placeAll (2 ^ 3) 1 (fun _ => 0) (fun _ => (0 : Nat))
        (make_bases_offsets 2 (fun _ => 0) 0).2.1 1 (fun _ _ => ((0, 0), 0))
        ((make_bases_offsets 2 (fun _ => 0) 0).1.enum.take 3)
        (initState Nat 0 (2 ^ 3) (make_bases_offsets 2 (fun _ => 0) 0).2.2) =
        Except.ok stk ∧
      (∀ x y, x < 2 ^ 3 → y < 2 ^ 3 →
        ((x, y) ∈ stk.openL ↔ get2d stk.grid x y none = none)) ∧
      stk.openL.length = 2 ^ 3 * 2 ^ 3 - 3 ∧ stk.openL.Nodup :=
  c8_open_set_exact 0 (fun _ => 0) (fun _ => 0) (fun _ _ => ((0, 0), 0)) 2 1 1
    (by decide) (by decide) (by decide) (by decide)
    (fun _ _ => (by decide : (0 : Nat) < 2 ^ 3 ∧ (0 : Nat) < 2 ^ 3)) 3 (by decide)

end Spiral
